import Mathlib

/-!
Shallow embedding of the water_tracker repository's core engine.

The repository contains two variants of the engine:
* `src/app.py` — the FastAPI application ("AquaFlow"): users / entries /
  daily_stats tables, category multipliers, a materialized `met_goal` flag and
  a full-history streak recompute (`recompute_streaks`).
* `src/db.py` — the `Database` class used by the bot variant: users /
  water_log / daily_stats tables, an `updated_utc` audit column on daily
  stats, a read-time day-done check (`get_day_done`) and an incremental
  streak update (`update_streak`).

Local calendar dates are modelled as integers (day numbers): the Python code
manipulates dates only through equality, ordering, and `timedelta(days = 1)`
steps, all of which are faithfully mirrored by integer arithmetic.
SQL rows are modelled as lists of records; keyed `INSERT .. ON CONFLICT DO
UPDATE` statements become replace-or-append on those lists, keyed `SELECT`
becomes an association-list lookup, and `ORDER BY date ASC` becomes an
explicit sort.  The wall clock (`utcnow`) is passed as an explicit `now`
parameter wherever the source reads it.
-/

/-- Row of the `users` table in `src/app.py` (`db_init`): `weight_kg`,
`factor_ml`, `goal_ml` are INTEGER columns (defaults 0 / 33 / 0), the streak
counters are non-negative counts written only by `recompute_streaks`.
The `first_name` / `username` presentation columns are not modelled. -/
structure UserRow where
  weight_kg : Int
  factor_ml : Int
  goal_ml : Int
  best_streak : Nat
  current_streak : Nat
deriving Repr, DecidableEq

/-- Row of the `entries` table in `src/app.py`: id, owner, local date,
drink type, raw and effective amounts.  The `ts` timestamp column is
presentation-only and not modelled. -/
structure Entry where
  id : Int
  tg : Int
  day : Int
  drink : String
  raw_ml : Int
  effective_ml : Int
deriving Repr, DecidableEq

/-- Row of the `daily_stats` table in `src/app.py`, keyed by
`(telegram_id, date)`: total, goal, and the materialized met flag
(stored as INTEGER 0/1, modelled as `Bool`). -/
structure Stat where
  tg : Int
  day : Int
  total_ml : Int
  goal_ml : Int
  met_goal : Bool
deriving Repr, DecidableEq

/-- The SQLite database state of `src/app.py`: the three tables plus the
`entries` AUTOINCREMENT counter. -/
structure AppDB where
  users : List (Int × UserRow)
  entries : List Entry
  stats : List Stat
  nextId : Int
deriving Repr, DecidableEq

/-- Fresh database (`db_init` creates empty tables; AUTOINCREMENT starts
at 1). -/
def emptyDB : AppDB := { users := [], entries := [], stats := [], nextId := 1 }

/-- Column defaults used by the INSERT in `ensure_user` (`src/app.py`
lines 237-243): weight 0, factor 33, goal 0, both streaks 0. -/
def defaultUser : UserRow :=
  { weight_kg := 0, factor_ml := 33, goal_ml := 0, best_streak := 0, current_streak := 0 }

/-- `SELECT * FROM users WHERE telegram_id=?` — keyed lookup on the users
table (the key is unique, so first match suffices). -/
def lookupUser : List (Int × UserRow) → Int → Option UserRow
  | [], _ => none
  | p :: t, tg => if p.1 = tg then some p.2 else lookupUser t tg

/-- `UPDATE users SET ... WHERE telegram_id=?` — apply `f` to the rows with
the given key. -/
def mapUser (f : UserRow → UserRow) : List (Int × UserRow) → Int → List (Int × UserRow)
  | [], _ => []
  | p :: t, tg => (if p.1 = tg then (p.1, f p.2) else p) :: mapUser f t tg

/-- State update wrapper for `UPDATE users ... WHERE telegram_id=?`. -/
def setUser (db : AppDB) (tg : Int) (f : UserRow → UserRow) : AppDB :=
  { db with users := mapUser f db.users tg }

/-- Current profile row of a user, if present. -/
def userOf (db : AppDB) (tg : Int) : Option UserRow :=
  lookupUser db.users tg

/-- `calc_goal` (`src/app.py` lines 194-198): non-positive weight gives 0,
otherwise weight times the factor clamped to [30, 35]. -/
def calc_goal (weight_kg factor_ml : Int) : Int :=
  if weight_kg ≤ 0 then 0 else weight_kg * (max 30 (min 35 factor_ml))

/-- `api_add` drink-type normalization (`src/app.py` lines 622-623): a
category outside the `DRINK_MULTIPLIERS` keys {water, tea, coffee} is
replaced by "water". -/
def normalizeDrink (d : String) : String :=
  if d = "water" ∨ d = "tea" ∨ d = "coffee" then d else "water"

/-- Effective amount `int(round(ml * mult))` of `src/app.py` lines 638-639,
with multipliers water 1.0, tea 0.8, coffee 0.6.  For an integer
`0 < ml ≤ 5000` the exact product `ml * 4/5` (resp. `ml * 3/5`) has
fractional part in {0, .2, .4, .6, .8}, so Python's round-half-even has no
ties and returns the nearest integer; the double-precision evaluation of
`ml * 0.8` / `ml * 0.6` carries an absolute error below 1e-9 on this range,
far smaller than the 0.1 distance to any rounding boundary, so it rounds to
the same nearest integer.  Nearest-integer of `p/10` for positive `p` is
`(p + 5) / 10` in integer division. -/
def effectiveOf (d : String) (ml : Int) : Int :=
  if d = "tea" then (8 * ml + 5) / 10
  else if d = "coffee" then (6 * ml + 5) / 10
  else ml

/-- `SELECT COALESCE(SUM(effective_ml),0) FROM entries WHERE telegram_id=?
AND date=?` (`src/app.py` lines 251-255). -/
def sumDay : List Entry → Int → Int → Int
  | [], _, _ => 0
  | e :: t, tg, day => (if e.tg = tg ∧ e.day = day then e.effective_ml else 0) + sumDay t tg day

/-- `INSERT INTO daily_stats ... ON CONFLICT(telegram_id, date) DO UPDATE`:
replace the row with the same `(tg, day)` key if present, else append. -/
def upsertStat (row : Stat) : List Stat → List Stat
  | [] => [row]
  | s :: t => if s.tg = row.tg ∧ s.day = row.day then row :: t else s :: upsertStat row t

/-- `SELECT * FROM daily_stats WHERE telegram_id=? AND date=?`. -/
def lookupStat : List Stat → Int → Int → Option Stat
  | [], _, _ => none
  | s :: t, tg, day => if s.tg = tg ∧ s.day = day then some s else lookupStat t tg day

/-- `upsert_daily_stats` (`src/app.py` lines 249-272): recompute the day's
total from the ledger, compute `met_goal = (goal_ml > 0 and total >= goal_ml)`,
upsert the row and return it. -/
def upsert_daily_stats (db : AppDB) (tg day goal_ml : Int) : AppDB × Stat :=
  let total := sumDay db.entries tg day
  let row : Stat :=
    { tg := tg, day := day, total_ml := total, goal_ml := goal_ml,
      met_goal := decide (0 < goal_ml ∧ goal_ml ≤ total) }
  ({ db with stats := upsertStat row db.stats }, row)

/-- Best-streak pass of `recompute_streaks` (`src/app.py` lines 292-299):
scan the date-ascending rows, extending a run on each met day and resetting
it on an unmet day, keeping the maximum run length. -/
def bestScan : List Stat → Nat → Nat → Nat
  | [], _, best => best
  | r :: t, run, best =>
    if r.met_goal then bestScan t (run + 1) (max best (run + 1)) else bestScan t 0 best

/-- Current-streak pass of `recompute_streaks` (`src/app.py` lines 301-319):
walk the date-descending rows from the reference date, stepping the expected
date back one day per met row; a date mismatch (gap) or an unmet row stops
the walk. -/
def currentWalk : List Stat → Int → Nat → Nat
  | [], _, cur => cur
  | r :: t, expected, cur =>
    if r.day = expected then
      if r.met_goal then currentWalk t (expected - 1) (cur + 1) else cur
    else cur

/-- `recompute_streaks` (`src/app.py` lines 275-329) as a function of the
date-ascending daily_stats rows of the user, the reference date, and the
stored best streak: with no rows both counters are set to 0; otherwise
current is the descending walk (the `ORDER BY date DESC` result is the
reverse of the ascending one) and best is `MAX(best_streak, scan)`. -/
def recompute_streaks (rowsAsc : List Stat) (today : Int) (oldBest : Nat) : Nat × Nat :=
  if rowsAsc.isEmpty then (0, 0)
  else (currentWalk rowsAsc.reverse today 0, max oldBest (bestScan rowsAsc 0 0))

/-- `SELECT date, met_goal FROM daily_stats WHERE telegram_id=? ORDER BY
date ASC` — the user's rows in ascending date order. -/
def statsAsc (db : AppDB) (tg : Int) : List Stat :=
  List.insertionSort (fun a b => a.day ≤ b.day) (db.stats.filter (fun s => s.tg == tg))

/-- `recompute_streaks` acting on the database state: computes both streaks
from the user's daily_stats rows and stores them via
`UPDATE users SET current_streak=?, best_streak=MAX(best_streak, ?)`. -/
def recompute_streaks_db (db : AppDB) (tg today : Int) : AppDB :=
  let rows := statsAsc db tg
  if rows.isEmpty then
    setUser db tg (fun u => { u with current_streak := 0, best_streak := 0 })
  else
    setUser db tg (fun u =>
      { u with current_streak := currentWalk rows.reverse today 0,
               best_streak := max u.best_streak (bestScan rows 0 0) })

/-- `ensure_user` (`src/app.py` lines 223-246): insert the default profile
row when absent.  (The name/username refresh performed for an existing user
touches only the unmodelled presentation columns.) -/
def ensure_user (db : AppDB) (tg : Int) : AppDB :=
  match userOf db tg with
  | some _ => db
  | none => { db with users := (tg, defaultUser) :: db.users }

/-- The goal-resolution block shared by `api_state` (lines 504-510) and
`api_add` (lines 630-636): when the stored goal is not positive but a
positive weight is present, derive the goal with `calc_goal` and persist it;
returns the state and the goal used for the subsequent daily-stat upsert. -/
def resolveGoal (db : AppDB) (tg : Int) : AppDB × Int :=
  match userOf db tg with
  | none => (db, 0)
  | some u =>
    if u.goal_ml ≤ 0 ∧ 0 < u.weight_kg then
      let g := calc_goal u.weight_kg u.factor_ml
      (setUser db tg (fun v => { v with goal_ml := g }), g)
    else (db, u.goal_ml)

/-- Outcomes reported by the API handlers: HTTP 400 (validation) and
HTTP 404 (not found). -/
inductive ApiErr where
  | validation
  | notFound
deriving Repr, DecidableEq

/-- `api_add` (`src/app.py` lines 611-685): reject `ml <= 0 or ml > 5000`
before touching any state; otherwise normalize the drink type, ensure the
user, resolve the goal, refresh the day's stats, insert the entry (recording
the effective amount computed at insert time), refresh the stats again and
recompute the streaks.  Returns the new state and the new entry id. -/
def api_add (db : AppDB) (tg ml : Int) (drink : String) (day : Int) :
    AppDB × Except ApiErr Int :=
  if ml ≤ 0 ∨ 5000 < ml then (db, .error .validation)
  else
    let dt := normalizeDrink drink
    let db1 := ensure_user db tg
    let rg := resolveGoal db1 tg
    let db2 := rg.1
    let goal := rg.2
    let db3 := (upsert_daily_stats db2 tg day goal).1
    let eid := db3.nextId
    let e : Entry :=
      { id := eid, tg := tg, day := day, drink := dt, raw_ml := ml,
        effective_ml := effectiveOf dt ml }
    let db4 := { db3 with entries := db3.entries ++ [e], nextId := db3.nextId + 1 }
    let db5 := (upsert_daily_stats db4 tg day goal).1
    (recompute_streaks_db db5 tg day, .ok eid)

/-- `api_undo` (`src/app.py` lines 688-736): reject non-positive ids with a
validation error before touching state; otherwise ensure the user, look the
entry up by `(id, telegram_id)`; a missing or non-owned entry yields
NotFound (after the committed `ensure_user`); on success delete the entry,
refresh the stats of the entry's day and of the client date, and recompute
the streaks. -/
def api_undo (db : AppDB) (tg eid clientDay : Int) : AppDB × Except ApiErr Unit :=
  if eid ≤ 0 then (db, .error .validation)
  else
    match (ensure_user db tg).entries.find? (fun e => e.id == eid && e.tg == tg) with
    | none => (ensure_user db tg, .error .notFound)
    | some e =>
      let db1 := ensure_user db tg
      let goal := ((userOf db1 tg).map (fun u => u.goal_ml)).getD 0
      let db2 := { db1 with entries := db1.entries.filter (fun x => !(x.id == eid && x.tg == tg)) }
      let db3 := (upsert_daily_stats db2 tg e.day goal).1
      let db4 := (upsert_daily_stats db3 tg clientDay goal).1
      (recompute_streaks_db db4 tg clientDay, .ok ())

/-- `api_profile` (`src/app.py` lines 739-779): ensure the user, clamp the
supplied fields (weight to [0,300], factor to [30,35], explicit goal to
[0,10000]), recompute the goal from the formula when weight or factor was
supplied without an explicit goal, persist the profile and refresh today's
daily stats with the new goal (no streak recompute). -/
def api_profile (db : AppDB) (tg : Int) (w f g : Option Int) (day : Int) : AppDB :=
  match userOf (ensure_user db tg) tg with
  | none => ensure_user db tg
  | some u =>
    let nw := match w with | some x => max 0 (min 300 x) | none => u.weight_kg
    let nf := match f with | some x => max 30 (min 35 x) | none => u.factor_ml
    let ng0 := match g with | some x => max 0 (min 10000 x) | none => u.goal_ml
    let ng := if g.isNone ∧ (w.isSome ∨ f.isSome) then
        let c := calc_goal nw nf
        if 0 < c then c else ng0
      else ng0
    let db2 := setUser (ensure_user db tg) tg
      (fun v => { v with weight_kg := nw, factor_ml := nf, goal_ml := ng })
    (upsert_daily_stats db2 tg day ng).1

/-- `api_state` (`src/app.py` lines 492-608) restricted to its state
mutations: ensure the user, resolve the goal, refresh today's daily stats
and recompute the streaks (the rest of the handler is a read-only
projection). -/
def api_state (db : AppDB) (tg day : Int) : AppDB :=
  let db1 := ensure_user db tg
  let rg := resolveGoal db1 tg
  let db2 := (upsert_daily_stats rg.1 tg day rg.2).1
  recompute_streaks_db db2 tg day

/-- The state-mutating requests the application serves: the four POST
endpoints of `src/app.py` (`/api/add`, `/api/undo`, `/api/profile`,
`/api/state`); `/api/state` performs the refresh plus streak update. -/
inductive Op where
  | add (tg ml : Int) (drink : String) (day : Int)
  | undo (tg eid day : Int)
  | profile (tg : Int) (w f g : Option Int) (day : Int)
  | state (tg day : Int)
deriving Repr, DecidableEq

/-- One request against the database. -/
def step (db : AppDB) : Op → AppDB
  | .add tg ml drink day => (api_add db tg ml drink day).1
  | .undo tg eid day => (api_undo db tg eid day).1
  | .profile tg w f g day => api_profile db tg w f g day
  | .state tg day => api_state db tg day

/-- A request sequence run from the freshly initialized database. -/
def runOps (ops : List Op) : AppDB :=
  ops.foldl step emptyDB

/-- Stored best streak of a user (0 when the profile row is absent). -/
def bestOf (db : AppDB) (tg : Int) : Nat :=
  ((userOf db tg).map (fun u => u.best_streak)).getD 0

/-- Stored current streak of a user (0 when the profile row is absent). -/
def curOf (db : AppDB) (tg : Int) : Nat :=
  ((userOf db tg).map (fun u => u.current_streak)).getD 0

/-- The user's daily_stats rows (in table order). -/
def userStats (db : AppDB) (tg : Int) : List Stat :=
  db.stats.filter (fun s => s.tg == tg)

namespace Db

/-- Row of the `users` table in `src/db.py`: weight may be NULL, factor
defaults to 33, goal defaults to 2000, streak counters default to 0 and the
last streak-update date may be NULL. -/
structure DbUser where
  weight_kg : Option Int
  ml_per_kg : Int
  goal_ml : Int
  current_streak : Nat
  best_streak : Nat
  last_streak_date : Option Int
deriving Repr, DecidableEq

/-- Row of the `daily_stats` table in `src/db.py` for one user: local date,
total, goal, and the `updated_utc` audit timestamp written on every refresh
(timestamps modelled as integers, passed in explicitly for `utcnow`). -/
structure DbStat where
  day : Int
  total_ml : Int
  goal_ml : Int
  updated_utc : Int
deriving Repr, DecidableEq

/-- The `src/db.py` store restricted to a single user: the profile row, the
`water_log` rows (local date, amount) and the `daily_stats` rows. -/
structure WDB where
  user : DbUser
  log : List (Int × Int)
  stats : List DbStat
deriving Repr, DecidableEq

/-- Defaults of the `INSERT OR IGNORE` in `Db.ensure_user` (`src/db.py`
lines 79-85): NULL weight, the supplied factor, goal 2000, zero streaks. -/
def default_user (default_ml_per_kg : Int) : DbUser :=
  { weight_kg := none, ml_per_kg := default_ml_per_kg, goal_ml := 2000,
    current_streak := 0, best_streak := 0, last_streak_date := none }

/-- `ensure_user` (`src/db.py` lines 79-85): keep an existing row, else
insert the defaults (goal 2000). -/
def ensure_user (u : Option DbUser) (default_ml_per_kg : Int) : DbUser :=
  u.getD (default_user default_ml_per_kg)

/-- `set_weight` (`src/db.py` lines 98-101). -/
def set_weight (u : DbUser) (w : Int) : DbUser := { u with weight_kg := some w }

/-- `set_factor` (`src/db.py` lines 103-106): stores the factor with no
bounds check. -/
def set_factor (u : DbUser) (k : Int) : DbUser := { u with ml_per_kg := k }

/-- `set_goal` (`src/db.py` lines 108-111). -/
def set_goal (u : DbUser) (g : Int) : DbUser := { u with goal_ml := g }

/-- `recompute_goal_from_formula` (`src/db.py` lines 113-121): a NULL or
zero weight (Python falsy check) leaves the stored goal; otherwise the goal
becomes `weight * ml_per_kg` with no clamping of the stored factor. -/
def recompute_goal_from_formula (u : DbUser) : DbUser × Int :=
  match u.weight_kg with
  | none => (u, u.goal_ml)
  | some w =>
    if w = 0 then (u, u.goal_ml)
    else ({ u with goal_ml := w * u.ml_per_kg }, w * u.ml_per_kg)

/-- `get_total_for_date` (`src/db.py` lines 140-147): sum of the day's log
amounts. -/
def total_for_date : List (Int × Int) → Int → Int
  | [], _ => 0
  | e :: t, d => (if e.1 = d then e.2 else 0) + total_for_date t d

/-- `INSERT INTO daily_stats ... ON CONFLICT(tg_id, local_date) DO UPDATE`
(`src/db.py` lines 155-164): replace the row for the date, else append. -/
def upsertDbStat (row : DbStat) : List DbStat → List DbStat
  | [] => [row]
  | s :: t => if s.day = row.day then row :: t else s :: upsertDbStat row t

/-- Row lookup by date in the single-user daily_stats list. -/
def lookupDbStat : List DbStat → Int → Option DbStat
  | [], _ => none
  | s :: t, d => if s.day = d then some s else lookupDbStat t d

/-- `get_day_done` (`src/db.py` lines 192-200): a missing row reads as not
done; a present row is done when `total_ml >= goal_ml` — there is no
`goal > 0` guard. -/
def get_day_done (stats : List DbStat) (d : Int) : Bool :=
  match lookupDbStat stats d with
  | none => false
  | some r => r.goal_ml ≤ r.total_ml

/-- The `UPDATE users SET current_streak=?, best_streak=?, last_streak_date=?`
tail of `update_streak` (`src/db.py` lines 230-238): best becomes
`max(best, current)` and the last-update date becomes the given date. -/
def streak_commit (u : DbUser) (d : Int) (current : Nat) : DbUser :=
  { u with current_streak := current, best_streak := max u.best_streak current,
           last_streak_date := some d }

/-- `update_streak` (`src/db.py` lines 202-238): return unchanged when the
day is not done; otherwise, if the last update was the same date return
unchanged, if it was the previous day increment the current streak, else
restart it at 1; commit with `best = max(best, current)`. -/
def update_streak (stats : List DbStat) (u : DbUser) (d : Int) : DbUser :=
  if get_day_done stats d then
    match u.last_streak_date with
    | some l =>
      if d - l = 0 then u
      else if d - l = 1 then streak_commit u d (u.current_streak + 1)
      else streak_commit u d 1
    | none => streak_commit u d 1
  else u

/-- `refresh_daily_stats_for_date` (`src/db.py` lines 149-166): read the
profile goal, recompute the day's total from the log, upsert the daily row
stamped with the current time, then run `update_streak` on the new stats. -/
def refresh_daily_stats_for_date (w : WDB) (d now : Int) : WDB :=
  let row : DbStat :=
    { day := d, total_ml := total_for_date w.log d, goal_ml := w.user.goal_ml,
      updated_utc := now }
  let stats' := upsertDbStat row w.stats
  { w with stats := stats', user := update_streak stats' w.user d }

/-- `add_water` (`src/db.py` lines 125-138): insert a log row carrying the
local date computed at insert time, then refresh that day's stats (which in
turn runs `update_streak`). -/
def add_water (w : WDB) (day amount now : Int) : WDB :=
  refresh_daily_stats_for_date { w with log := w.log ++ [(day, amount)] } day now

/-- The mutating methods of the `src/db.py` `Database` class on one user's
state: profile setters (`set_weight`, `set_factor`, `set_goal`),
`recompute_goal_from_formula`, `add_water`, `refresh_daily_stats_for_date`
and `update_streak`.  (`ensure_user` is the no-op keep of an existing row
once the state is provisioned.) -/
inductive WOp where
  | setWeight (x : Int)
  | setFactor (k : Int)
  | setGoal (g : Int)
  | recomputeGoal
  | addWater (day amount now : Int)
  | refresh (day now : Int)
  | updateStreak (day : Int)
deriving Repr, DecidableEq

/-- One `Database` method call against the single-user state. -/
def wstep (w : WDB) : WOp → WDB
  | .setWeight x => { w with user := set_weight w.user x }
  | .setFactor k => { w with user := set_factor w.user k }
  | .setGoal g => { w with user := set_goal w.user g }
  | .recomputeGoal => { w with user := (recompute_goal_from_formula w.user).1 }
  | .addWater day amount now => add_water w day amount now
  | .refresh day now => refresh_daily_stats_for_date w day now
  | .updateStreak day => { w with user := update_streak w.stats w.user day }

/-- A freshly provisioned `src/db.py` user state: the `ensure_user` defaults
with empty log and stats tables. -/
def initWDB (default_ml_per_kg : Int) : WDB :=
  { user := ensure_user none default_ml_per_kg, log := [], stats := [] }

/-- A `Database` method sequence run from the freshly provisioned state. -/
def runWOps (default_ml_per_kg : Int) (ops : List WOp) : WDB :=
  ops.foldl wstep (initWDB default_ml_per_kg)

end Db

/-- Round `p / q` (for positive `q`, positive `p`) to the nearest integer —
the spec's `round(raw amount × category multiplier)` for a multiplier `p/q`
whose products never land on a half-integer. -/
def specRound (p q : Int) : Int := (2 * p + q) / (2 * q)

/-- Modelled from the spec (§3, C9): effective amount = round(raw ×
multiplier) with multipliers water 1.0, tea 0.8 = 4/5, coffee 0.6 = 3/5. -/
def specEffective (drink : String) (ml : Int) : Int :=
  if drink = "tea" then specRound (4 * ml) 5
  else if drink = "coffee" then specRound (3 * ml) 5
  else ml

/-- Invariant carried through every request: each stored profile has
`current_streak ≤ best_streak`, and a positive best streak implies the user
owns at least one daily_stats row (so the zeroing branch of
`recompute_streaks` is unreachable once a best streak exists). -/
def StreakInv (db : AppDB) : Prop :=
  ∀ tg, curOf db tg ≤ bestOf db tg ∧ (0 < bestOf db tg → userStats db tg ≠ [])

/-- Modelled from the spec (§4.3): the count of consecutive goal-met days
ending at a date, walking backward one calendar day at a time; the fuel
argument bounds the walk (the rows list length always suffices, since every
met day consumes a distinct row). -/
def consecMetAux (met : Int → Bool) : Nat → Int → Nat
  | 0, _ => 0
  | n + 1, d => if met d then consecMetAux met n (d - 1) + 1 else 0

/-- A date has a materialized goal-met row. -/
def metOn (rows : List Stat) (d : Int) : Bool :=
  rows.any (fun r => r.day == d && r.met_goal)

/-- Modelled from the spec (§4.3): the count of consecutive goal-met days
ending at `d` over the materialized rows; a missing day or a day present but
not met terminates the count. -/
def specCurrentStreak (rows : List Stat) (d : Int) : Nat :=
  consecMetAux (metOn rows) rows.length d

/-! Lemmas about the two passes of `recompute_streaks`. -/

/-- The best-streak scan never returns less than its accumulator. -/
theorem bestScan_ge_best (l : List Stat) : ∀ run best, best ≤ bestScan l run best := by
  induction l with
  | nil => intro run best; exact le_refl _
  | cons r t ih =>
    intro run best
    simp only [bestScan]
    split
    · exact le_trans (le_max_left _ _) (ih _ _)
    · exact ih _ _

/-- Scanning a non-empty all-met block yields at least the incoming run
extended through the whole block. -/
theorem bestScan_allMet : ∀ (s q : List Stat), (∀ r ∈ s, r.met_goal = true) → s ≠ [] →
    ∀ run best, run + s.length ≤ bestScan (s ++ q) run best := by
  intro s
  induction s with
  | nil => intro q _ hne; exact absurd rfl hne
  | cons r t ih =>
    intro q hmet _ run best
    have hr : r.met_goal = true := hmet r (List.mem_cons_self _ _)
    simp only [List.cons_append, bestScan, hr, if_true]
    cases t with
    | nil =>
      have h := bestScan_ge_best q (run + 1) (max best (run + 1))
      show run + [r].length ≤ bestScan q (run + 1) (max best (run + 1))
      simp only [List.length_cons, List.length_nil]
      omega
    | cons r' t' =>
      have h : run + 1 + (r' :: t').length ≤
          bestScan (r' :: (t' ++ q)) (run + 1) (max best (run + 1)) :=
        ih q (fun x hx => hmet x (List.mem_cons_of_mem _ hx)) (by simp)
          (run + 1) (max best (run + 1))
      show run + (r :: r' :: t').length ≤
          bestScan (r' :: (t' ++ q)) (run + 1) (max best (run + 1))
      simp only [List.length_cons] at h ⊢
      omega

/-- The best-streak scan dominates the length of any contiguous all-met
block of the scanned list. -/
theorem bestScan_infix : ∀ (p s q : List Stat), (∀ r ∈ s, r.met_goal = true) →
    ∀ run best, s.length ≤ bestScan (p ++ (s ++ q)) run best := by
  intro p
  induction p with
  | nil =>
    intro s q hmet run best
    cases s with
    | nil => simp
    | cons r t =>
      have h := bestScan_allMet (r :: t) q hmet (by simp) run best
      simp only [List.nil_append, List.cons_append, List.length_cons] at h ⊢
      omega
  | cons x p' ih =>
    intro s q hmet run best
    simp only [List.cons_append, bestScan]
    split
    · exact ih s q hmet _ _
    · exact ih s q hmet _ _

/-- The current-streak walk only adds to its accumulator. -/
theorem currentWalk_acc : ∀ (M : List Stat) (e : Int) (c : Nat),
    currentWalk M e c = c + currentWalk M e 0 := by
  intro M
  induction M with
  | nil => intro e c; simp [currentWalk]
  | cons r t ih =>
    intro e c
    simp only [currentWalk]
    split
    · split
      · rw [ih (e - 1) (c + 1), ih (e - 1) (0 + 1)]; omega
      · omega
    · omega

/-- The rows consumed by the current-streak walk are an all-met prefix of
the walked list. -/
theorem currentWalk_decomp : ∀ (M : List Stat) (e : Int),
    ∃ s q, M = s ++ q ∧ (∀ r ∈ s, r.met_goal = true) ∧ currentWalk M e 0 = s.length := by
  intro M
  induction M with
  | nil => intro e; exact ⟨[], [], rfl, by simp, rfl⟩
  | cons r t ih =>
    intro e
    by_cases hd : r.day = e
    · by_cases hm : r.met_goal
      · obtain ⟨s, q, hM, hmet, hw⟩ := ih (e - 1)
        refine ⟨r :: s, q, by rw [List.cons_append, ← hM], ?_, ?_⟩
        · intro x hx
          rcases List.mem_cons.mp hx with h | h
          · rw [h]; exact hm
          · exact hmet x h
        · simp only [currentWalk, hd, if_pos rfl, hm, if_true, List.length_cons]
          rw [currentWalk_acc t (e - 1) (0 + 1), hw]
          omega
      · exact ⟨[], r :: t, rfl, by simp, by simp [currentWalk, hd, hm]⟩
    · exact ⟨[], r :: t, rfl, by simp, by simp [currentWalk, hd]⟩

/-- The current streak computed by walking the reversed rows never exceeds
the best-streak scan of the rows. -/
theorem currentWalk_le_bestScan (L : List Stat) (e : Int) :
    currentWalk L.reverse e 0 ≤ bestScan L 0 0 := by
  obtain ⟨s, q, hM, hmet, hw⟩ := currentWalk_decomp L.reverse e
  have hL : L = q.reverse ++ (s.reverse ++ []) := by
    have h := congrArg List.reverse hM
    simpa using h
  rw [hw]
  have h2 : s.reverse.length ≤ bestScan (q.reverse ++ (s.reverse ++ [])) 0 0 :=
    bestScan_infix _ _ _ (fun r hr => hmet r (List.mem_reverse.mp hr)) 0 0
  rw [← hL] at h2
  simpa using h2

/-- The backward count only inspects the flag at dates at most its start. -/
theorem consecMetAux_congr : ∀ (n : Nat) (f g : Int → Bool) (d : Int),
    (∀ e, e ≤ d → f e = g e) → consecMetAux f n d = consecMetAux g n d := by
  intro n
  induction n with
  | zero => intro f g d _; rfl
  | succ m ih =>
    intro f g d h
    simp only [consecMetAux]
    rw [h d le_rfl]
    split
    · rw [ih f g (d - 1) (fun e he => h e (by omega))]
    · rfl

/-- No row dated at `d` means no met flag at `d`. -/
theorem metOn_eq_false (rows : List Stat) (d : Int) (h : ∀ r ∈ rows, r.day < d) :
    metOn rows d = false := by
  simp only [metOn, List.any_eq_false, Bool.and_eq_true, beq_iff_eq, not_and]
  intro r hr hd
  exact absurd hd (by have := h r hr; omega)

/-- A met flag on a cons list whose head has a different date comes from the
tail. -/
theorem metOn_tail (r : Stat) (t : List Stat) (d : Int) (hne : r.day ≠ d)
    (h : metOn (r :: t) d = true) : metOn t d = true := by
  simp only [metOn, List.any_cons, Bool.or_eq_true, Bool.and_eq_true, beq_iff_eq] at h ⊢
  rcases h with ⟨h1, _⟩ | h2
  · exact absurd h1 hne
  · exact h2

/-- On a strictly descending row list whose dates do not exceed the
reference date, the current-streak walk computes exactly the spec's count of
consecutive met days ending at the reference date. -/
theorem currentWalk_eq_consec_desc :
    ∀ (M : List Stat) (today : Int),
      M.Pairwise (fun a b => b.day < a.day) →
      (∀ r ∈ M, r.day ≤ today) →
      currentWalk M today 0 = consecMetAux (metOn M) M.length today := by
  intro M
  induction M with
  | nil => intro today _ _; rfl
  | cons r t ih =>
    intro today hp hle
    have hhead : ∀ x ∈ t, x.day < r.day := (List.pairwise_cons.mp hp).1
    have hpt := (List.pairwise_cons.mp hp).2
    by_cases hd : r.day = today
    · by_cases hm : r.met_goal
      · have hMt : metOn (r :: t) today = true := by
          simp only [metOn, List.any_cons, Bool.or_eq_true, Bool.and_eq_true, beq_iff_eq]
          exact Or.inl ⟨hd, hm⟩
        simp only [List.length_cons, consecMetAux, hMt, if_true]
        simp only [currentWalk, hd, if_pos rfl, hm, if_true]
        rw [currentWalk_acc t (today - 1) (0 + 1)]
        have hlt : ∀ x ∈ t, x.day ≤ today - 1 := by
          intro x hx; have := hhead x hx; omega
        rw [ih (today - 1) hpt hlt]
        have hcg : consecMetAux (metOn (r :: t)) t.length (today - 1) =
            consecMetAux (metOn t) t.length (today - 1) := by
          apply consecMetAux_congr
          intro e he
          simp only [metOn, List.any_cons]
          have : (r.day == e && r.met_goal) = false := by
            have : r.day ≠ e := by omega
            simp [this]
          rw [this, Bool.false_or]
        rw [hcg]
        omega
      · have hMt : metOn (r :: t) today = false := by
          simp only [metOn, List.any_cons, Bool.or_eq_false_iff]
          constructor
          · simp [hm]
          · exact metOn_eq_false t today (fun x hx => by have := hhead x hx; omega)
        simp only [List.length_cons, consecMetAux, hMt, Bool.false_eq_true, if_false]
        simp [currentWalk, hd, hm]
    · have hrlt : r.day < today := by
        have := hle r (List.mem_cons_self _ _); omega
      have hMt : metOn (r :: t) today = false := by
        apply metOn_eq_false
        intro x hx
        rcases List.mem_cons.mp hx with h | h
        · rw [h]; exact hrlt
        · have := hhead x h; omega
      simp only [List.length_cons, consecMetAux, hMt, Bool.false_eq_true, if_false]
      simp [currentWalk, hd]

/-- Transfer of `currentWalk_eq_consec_desc` to the ascending rows actually
read by `recompute_streaks`: walking the reversed (descending) rows computes
the spec count, provided the rows are strictly ascending and none is dated
after the reference date. -/
theorem currentWalk_reverse_eq_spec (rows : List Stat) (today : Int)
    (hp : rows.Pairwise (fun a b => a.day < b.day))
    (hle : ∀ r ∈ rows, r.day ≤ today) :
    currentWalk rows.reverse today 0 = specCurrentStreak rows today := by
  have hrev : rows.reverse.Pairwise (fun a b => b.day < a.day) := by
    rw [List.pairwise_reverse]
    exact hp
  have h1 := currentWalk_eq_consec_desc rows.reverse today hrev
    (fun r hr => hle r (List.mem_reverse.mp hr))
  rw [h1, specCurrentStreak, List.length_reverse]
  apply consecMetAux_congr
  intro e _
  simp [metOn, List.any_eq_true, List.mem_reverse]

/-- A met flag at a date yields a row of the list with that date, met. -/
theorem metOn_exists (rows : List Stat) (d : Int) (h : metOn rows d = true) :
    ∃ x ∈ rows, x.day = d ∧ x.met_goal = true := by
  simp only [metOn, List.any_eq_true, Bool.and_eq_true, beq_iff_eq] at h
  exact h

/-- On a strictly ascending row list whose dates are at least `b`, a block of
met days `b, b+1, ..., b+k-1` occupies an all-met block at the very front of
the list. -/
theorem run_from_head : ∀ (k : Nat) (L : List Stat) (b : Int),
    L.Pairwise (fun a c => a.day < c.day) →
    (∀ i : Nat, i < k → metOn L (b + (i : Int)) = true) →
    (∀ x ∈ L, b ≤ x.day) →
    ∃ s q, L = s ++ q ∧ s.length = k ∧ ∀ r ∈ s, r.met_goal = true := by
  intro k
  induction k with
  | zero => intro L b _ _ _; exact ⟨[], L, rfl, rfl, by simp⟩
  | succ m ih =>
    intro L b hp hmet hge
    have h0 : metOn L b = true := by
      have := hmet 0 (by omega)
      simpa using this
    cases L with
    | nil => simp [metOn] at h0
    | cons r t =>
      have hhead : ∀ x ∈ t, r.day < x.day := (List.pairwise_cons.mp hp).1
      obtain ⟨w, hw, hwd, hwm⟩ := metOn_exists _ _ h0
      have hrb : r.day = b ∧ r.met_goal = true := by
        rcases List.mem_cons.mp hw with h | h
        · rw [← h]; exact ⟨hwd ▸ rfl, h ▸ hwm⟩
        · exfalso
          have h1 := hhead w h
          have h2 := hge r (List.mem_cons_self _ _)
          omega
      have hmt : ∀ i : Nat, i < m → metOn t (b + 1 + (i : Int)) = true := by
        intro i hi
        have hL := hmet (i + 1) (by omega)
        have harith : b + ((i : Int) + 1) = b + 1 + (i : Int) := by ring
        rw [Nat.cast_add, Nat.cast_one, harith] at hL
        exact metOn_tail r t _ (by have := hrb.1; omega) hL
      have hgt : ∀ x ∈ t, b + 1 ≤ x.day := by
        intro x hx
        have h1 := hhead x hx
        have h2 := hrb.1
        omega
      obtain ⟨s', q, ht, hlen, hms⟩ := ih t (b + 1) (List.pairwise_cons.mp hp).2 hmt hgt
      refine ⟨r :: s', q, by rw [List.cons_append, ← ht], by simp [hlen], ?_⟩
      intro x hx
      rcases List.mem_cons.mp hx with h | h
      · rw [h]; exact hrb.2
      · exact hms x h

/-- On a strictly ascending row list, a block of `k` consecutive met days
`d-k+1, ..., d` occupies a contiguous all-met block of length `k`. -/
theorem run_decomp : ∀ (L : List Stat), L.Pairwise (fun a c => a.day < c.day) →
    ∀ (d : Int) (k : Nat), 0 < k → (∀ i : Nat, i < k → metOn L (d - (i : Int)) = true) →
    ∃ p s q, L = p ++ (s ++ q) ∧ s.length = k ∧ ∀ r ∈ s, r.met_goal = true := by
  intro L
  induction L with
  | nil =>
    intro _ d k hk hmet
    exfalso
    have := hmet 0 hk
    simp [metOn] at this
  | cons r t ih =>
    intro hp d k hk hmet
    have hhead : ∀ x ∈ t, r.day < x.day := (List.pairwise_cons.mp hp).1
    have hpt := (List.pairwise_cons.mp hp).2
    rcases lt_trichotomy r.day (d - ((k : Int) - 1)) with hlt | heq | hgt
    · -- the head sits strictly before the run: all witnesses are in the tail
      have hmt : ∀ i : Nat, i < k → metOn t (d - (i : Int)) = true := by
        intro i hi
        have hL := hmet i hi
        exact metOn_tail r t _ (by omega) hL
      obtain ⟨p, s, q, ht, hlen, hms⟩ := ih hpt d k hk hmt
      exact ⟨r :: p, s, q, by rw [ht, List.cons_append], hlen, hms⟩
    · -- the head is the first day of the run
      have hge : ∀ x ∈ r :: t, d - ((k : Int) - 1) ≤ x.day := by
        intro x hx
        rcases List.mem_cons.mp hx with h | h
        · rw [h]; omega
        · have := hhead x h; omega
      have hmetb : ∀ i : Nat, i < k → metOn (r :: t) (d - ((k : Int) - 1) + (i : Int)) = true := by
        intro i hi
        have := hmet (k - 1 - i) (by omega)
        have harith : d - ((k - 1 - i : Nat) : Int) = d - ((k : Int) - 1) + (i : Int) := by
          have h1 : ((k - 1 - i : Nat) : Int) = (k : Int) - 1 - (i : Int) := by omega
          omega
        rw [harith] at this
        exact this
      obtain ⟨s, q, hL, hlen, hms⟩ := run_from_head k (r :: t) (d - ((k : Int) - 1)) hp hmetb hge
      exact ⟨[], s, q, by rw [List.nil_append, ← hL], hlen, hms⟩
    · -- impossible: the first run day would need a row dated before the head
      exfalso
      have hL := hmet (k - 1) (by omega)
      have harith : d - ((k - 1 : Nat) : Int) = d - ((k : Int) - 1) := by
        have h1 : ((k - 1 : Nat) : Int) = (k : Int) - 1 := by omega
        omega
      rw [harith] at hL
      obtain ⟨w, hw, hwd, _⟩ := metOn_exists _ _ hL
      rcases List.mem_cons.mp hw with h | h
      · rw [h] at hwd; omega
      · have := hhead w h; omega

/-! Lemmas about the modelled SQL primitives. -/

/-- Keyed lookup after a keyed update. -/
theorem lookupUser_mapUser (f : UserRow → UserRow) :
    ∀ (l : List (Int × UserRow)) (tg tg' : Int),
      lookupUser (mapUser f l tg) tg' =
        if tg' = tg then (lookupUser l tg').map f else lookupUser l tg' := by
  intro l
  induction l with
  | nil => intro tg tg'; simp only [mapUser, lookupUser]; split <;> rfl
  | cons p t ih =>
    intro tg tg'
    by_cases h1 : p.1 = tg <;> by_cases h2 : tg' = tg <;> by_cases h3 : p.1 = tg' <;>
      simp_all [mapUser, lookupUser]

/-- Lookup after `ensure_user`: the ensured user reads back as the previous
row or the defaults; other users are untouched. -/
theorem userOf_ensure_user (db : AppDB) (tg tg' : Int) :
    userOf (ensure_user db tg) tg' =
      if tg' = tg then some ((userOf db tg).getD defaultUser) else userOf db tg' := by
  unfold ensure_user
  cases h : userOf db tg with
  | some u =>
    simp only [h, Option.getD_some]
    split
    · next heq => rw [heq, h]
    · rfl
  | none =>
    simp only [h, Option.getD_none]
    show lookupUser ((tg, defaultUser) :: db.users) tg' = _
    simp only [lookupUser]
    by_cases h2 : tg' = tg
    · simp [h2]
    · have h3 : ¬ tg = tg' := fun h' => h2 h'.symm
      simp [h2, h3, userOf]

/-- Lookup after `setUser`. -/
theorem userOf_setUser (db : AppDB) (tg tg' : Int) (f : UserRow → UserRow) :
    userOf (setUser db tg f) tg' =
      if tg' = tg then (userOf db tg').map f else userOf db tg' :=
  lookupUser_mapUser f db.users tg tg'

/-- `setUser` touches only the users table. -/
theorem setUser_fields (db : AppDB) (tg : Int) (f : UserRow → UserRow) :
    (setUser db tg f).entries = db.entries ∧ (setUser db tg f).stats = db.stats ∧
    (setUser db tg f).nextId = db.nextId :=
  ⟨rfl, rfl, rfl⟩

/-- `ensure_user` touches only the users table. -/
theorem ensure_user_fields (db : AppDB) (tg : Int) :
    (ensure_user db tg).entries = db.entries ∧ (ensure_user db tg).stats = db.stats ∧
    (ensure_user db tg).nextId = db.nextId := by
  unfold ensure_user
  cases userOf db tg <;> exact ⟨rfl, rfl, rfl⟩

/-- The upserted row is a member of the upserted list. -/
theorem mem_upsertStat_self (row : Stat) : ∀ l, row ∈ upsertStat row l := by
  intro l
  induction l with
  | nil => simp [upsertStat]
  | cons s t ih =>
    simp only [upsertStat]
    split
    · exact List.mem_cons_self _ _
    · exact List.mem_cons_of_mem _ ih

/-- Upserting a row of one user leaves every other user's stats untouched. -/
theorem filter_upsertStat_other (row : Stat) (tg' : Int) (h : ¬ row.tg = tg') :
    ∀ l : List Stat,
      (upsertStat row l).filter (fun s => s.tg == tg') = l.filter (fun s => s.tg == tg') := by
  intro l
  induction l with
  | nil => simp [upsertStat, List.filter_cons, h]
  | cons s t ih =>
    simp only [upsertStat]
    split
    · next hmatch =>
      have hs : ¬ s.tg = tg' := by rw [hmatch.1]; exact h
      simp [List.filter_cons, hs, h]
    · simp [List.filter_cons, ih]

/-! Accessor lemmas used by the streak invariant. -/

/-- `ensure_user` never changes the stored streak counters (a created row
starts at 0, which is also what an absent row reads as). -/
theorem bestOf_ensure_user (db : AppDB) (tg tg' : Int) :
    bestOf (ensure_user db tg) tg' = bestOf db tg' := by
  unfold bestOf
  rw [userOf_ensure_user]
  split
  · next heq =>
    subst heq
    cases h : userOf db tg' <;> simp [h, defaultUser]
  · rfl

/-- `ensure_user` never changes the stored current streak. -/
theorem curOf_ensure_user (db : AppDB) (tg tg' : Int) :
    curOf (ensure_user db tg) tg' = curOf db tg' := by
  unfold curOf
  rw [userOf_ensure_user]
  split
  · next heq =>
    subst heq
    cases h : userOf db tg' <;> simp [h, defaultUser]
  · rfl

/-- A `setUser` whose update function preserves the best streak preserves
every stored best streak. -/
theorem bestOf_setUser (db : AppDB) (tg tg' : Int) (f : UserRow → UserRow)
    (hf : ∀ u, (f u).best_streak = u.best_streak) :
    bestOf (setUser db tg f) tg' = bestOf db tg' := by
  unfold bestOf
  rw [userOf_setUser]
  split
  · cases h : userOf db tg' <;> simp [h, hf]
  · rfl

/-- A `setUser` whose update function preserves the current streak preserves
every stored current streak. -/
theorem curOf_setUser (db : AppDB) (tg tg' : Int) (f : UserRow → UserRow)
    (hf : ∀ u, (f u).current_streak = u.current_streak) :
    curOf (setUser db tg f) tg' = curOf db tg' := by
  unfold curOf
  rw [userOf_setUser]
  split
  · cases h : userOf db tg' <;> simp [h, hf]
  · rfl

/-- The upsert of a user's daily row leaves that user with at least one
daily_stats row. -/
theorem userStats_upsert_self (db : AppDB) (tg day goal : Int) :
    userStats (upsert_daily_stats db tg day goal).1 tg ≠ [] := by
  apply List.ne_nil_of_mem (a :=
    { tg := tg, day := day, total_ml := sumDay db.entries tg day, goal_ml := goal,
      met_goal := decide (0 < goal ∧ goal ≤ sumDay db.entries tg day) })
  exact List.mem_filter.mpr ⟨mem_upsertStat_self _ _, by simp⟩

/-- The upsert of one user's daily row leaves other users' stats untouched. -/
theorem userStats_upsert_other (db : AppDB) (tg day goal tg' : Int) (h : ¬ tg = tg') :
    userStats (upsert_daily_stats db tg day goal).1 tg' = userStats db tg' :=
  filter_upsertStat_other _ tg' h db.stats

/-- `upsert_daily_stats` touches only the stats table. -/
theorem upsert_daily_stats_fields (db : AppDB) (tg day goal : Int) :
    (upsert_daily_stats db tg day goal).1.users = db.users ∧
    (upsert_daily_stats db tg day goal).1.entries = db.entries ∧
    (upsert_daily_stats db tg day goal).1.nextId = db.nextId :=
  ⟨rfl, rfl, rfl⟩

/-- The sorted row list is empty exactly when the user has no stats rows. -/
theorem statsAsc_eq_nil_iff (db : AppDB) (tg : Int) :
    statsAsc db tg = [] ↔ userStats db tg = [] := by
  unfold statsAsc userStats
  constructor
  · intro h
    have hl := congrArg List.length h
    rw [List.length_insertionSort] at hl
    exact List.eq_nil_of_length_eq_zero (by simpa using hl)
  · intro h
    rw [h]
    rfl

/-- `recompute_streaks_db` touches only the users table. -/
theorem recompute_streaks_db_fields (db : AppDB) (tg today : Int) :
    (recompute_streaks_db db tg today).entries = db.entries ∧
    (recompute_streaks_db db tg today).stats = db.stats ∧
    (recompute_streaks_db db tg today).nextId = db.nextId := by
  simp only [recompute_streaks_db]
  split <;> exact ⟨rfl, rfl, rfl⟩

/-- `recompute_streaks_db` leaves other users' streak counters untouched. -/
theorem bestOf_recompute_other (db : AppDB) (tg today tg' : Int) (h : ¬ tg' = tg) :
    bestOf (recompute_streaks_db db tg today) tg' = bestOf db tg' := by
  simp only [recompute_streaks_db, bestOf]
  split <;> simp only [userOf_setUser, if_neg h]

/-- `recompute_streaks_db` leaves other users' current streaks untouched. -/
theorem curOf_recompute_other (db : AppDB) (tg today tg' : Int) (h : ¬ tg' = tg) :
    curOf (recompute_streaks_db db tg today) tg' = curOf db tg' := by
  simp only [recompute_streaks_db, curOf]
  split <;> simp only [userOf_setUser, if_neg h]

/-- When the user still has stats rows, the recompute stores
`MAX(best_streak, scan)`, so the stored best streak never decreases. -/
theorem bestOf_recompute_ge (db : AppDB) (tg today : Int)
    (h : userStats db tg ≠ [] ∨ bestOf db tg = 0) :
    bestOf db tg ≤ bestOf (recompute_streaks_db db tg today) tg := by
  simp only [recompute_streaks_db]
  split
  · next hempty =>
    rcases h with hne | h0
    · exact absurd ((statsAsc_eq_nil_iff db tg).mp (List.isEmpty_iff.mp hempty)) hne
    · rw [h0]; exact Nat.zero_le _
  · unfold bestOf
    rw [userOf_setUser, if_pos rfl]
    cases hu : userOf db tg with
    | none => simp
    | some u => simp

/-- After a recompute the stored current streak is bounded by the stored
best streak. -/
theorem cur_le_best_recompute (db : AppDB) (tg today tg' : Int)
    (hother : ¬ tg' = tg → curOf db tg' ≤ bestOf db tg') :
    curOf (recompute_streaks_db db tg today) tg' ≤
      bestOf (recompute_streaks_db db tg today) tg' := by
  by_cases h : tg' = tg
  · subst h
    simp only [recompute_streaks_db]
    split
    · unfold curOf bestOf
      simp only [userOf_setUser, if_pos rfl]
      cases hu : userOf db tg' <;> simp
    · unfold curOf bestOf
      simp only [userOf_setUser, if_pos rfl]
      cases hu : userOf db tg' with
      | none => simp
      | some u =>
        simp only [Option.map_some', Option.getD_some]
        have hw := currentWalk_le_bestScan (statsAsc db tg') today
        exact le_trans hw (le_max_right _ _)
  · rw [bestOf_recompute_other db tg today tg' h, curOf_recompute_other db tg today tg' h]
    exact hother h

/-- Stats-only updates keep per-user stats projections in sync. -/
theorem userStats_congr (db db' : AppDB) (tg : Int) (h : db'.stats = db.stats) :
    userStats db' tg = userStats db tg := by
  unfold userStats
  rw [h]

/-- `resolveGoal` touches only the ensured user's goal field. -/
theorem resolveGoal_fields (db : AppDB) (tg : Int) :
    (resolveGoal db tg).1.entries = db.entries ∧ (resolveGoal db tg).1.stats = db.stats ∧
    (resolveGoal db tg).1.nextId = db.nextId := by
  unfold resolveGoal
  cases userOf db tg with
  | none => exact ⟨rfl, rfl, rfl⟩
  | some u =>
    simp only
    split
    · exact ⟨rfl, rfl, rfl⟩
    · exact ⟨rfl, rfl, rfl⟩

/-- `resolveGoal` never changes a stored best streak. -/
theorem bestOf_resolveGoal (db : AppDB) (tg tg' : Int) :
    bestOf (resolveGoal db tg).1 tg' = bestOf db tg' := by
  unfold resolveGoal
  cases userOf db tg with
  | none => rfl
  | some u =>
    simp only
    split
    · exact bestOf_setUser db tg tg' _ (fun _ => rfl)
    · rfl

/-- `resolveGoal` never changes a stored current streak. -/
theorem curOf_resolveGoal (db : AppDB) (tg tg' : Int) :
    curOf (resolveGoal db tg).1 tg' = curOf db tg' := by
  unfold resolveGoal
  cases userOf db tg with
  | none => rfl
  | some u =>
    simp only
    split
    · exact curOf_setUser db tg tg' _ (fun _ => rfl)
    · rfl

/-- The stats upsert does not touch the users table. -/
theorem bestOf_upsert (db : AppDB) (tg day g tg' : Int) :
    bestOf (upsert_daily_stats db tg day g).1 tg' = bestOf db tg' := rfl

/-- The stats upsert does not touch the users table. -/
theorem curOf_upsert (db : AppDB) (tg day g tg' : Int) :
    curOf (upsert_daily_stats db tg day g).1 tg' = curOf db tg' := rfl

/-- An entries/nextId update does not touch the users table. -/
theorem bestOf_entriesUpdate (db : AppDB) (es : List Entry) (n : Int) (tg' : Int) :
    bestOf { db with entries := es, nextId := n } tg' = bestOf db tg' := rfl

/-- An entries/nextId update does not touch the users table. -/
theorem curOf_entriesUpdate (db : AppDB) (es : List Entry) (n : Int) (tg' : Int) :
    curOf { db with entries := es, nextId := n } tg' = curOf db tg' := rfl

/-- An entries filter (undo's DELETE) does not touch the users table. -/
theorem bestOf_entriesOnly (db : AppDB) (es : List Entry) (tg' : Int) :
    bestOf { db with entries := es } tg' = bestOf db tg' := rfl

/-- An entries filter (undo's DELETE) does not touch the users table. -/
theorem curOf_entriesOnly (db : AppDB) (es : List Entry) (tg' : Int) :
    curOf { db with entries := es } tg' = curOf db tg' := rfl

/-- Best streak after a recompute, any target user: never below the previous
value, provided the recomputed user either owns stats rows or had best 0. -/
theorem bestOf_recompute_ge' (db : AppDB) (tg today tg' : Int)
    (h : userStats db tg ≠ [] ∨ bestOf db tg = 0) :
    bestOf db tg' ≤ bestOf (recompute_streaks_db db tg today) tg' := by
  by_cases he : tg' = tg
  · subst he
    exact bestOf_recompute_ge db tg' today h
  · rw [bestOf_recompute_other db tg today tg' he]

/-- With no stats rows, the recompute zeroes the stored best streak. -/
theorem bestOf_recompute_empty (db : AppDB) (tg today : Int)
    (h : userStats db tg = []) :
    bestOf (recompute_streaks_db db tg today) tg = 0 := by
  simp only [recompute_streaks_db]
  rw [if_pos (List.isEmpty_iff.mpr ((statsAsc_eq_nil_iff db tg).mpr h))]
  unfold bestOf
  simp only [userOf_setUser, if_pos rfl]
  cases userOf db tg <;> simp

/-! Preservation of the streak invariant by each pipeline stage. -/

/-- `ensure_user` preserves the streak invariant. -/
theorem streakInv_ensure (db : AppDB) (tg : Int) (h : StreakInv db) :
    StreakInv (ensure_user db tg) := by
  intro tg'
  refine ⟨?_, ?_⟩
  · rw [curOf_ensure_user, bestOf_ensure_user]
    exact (h tg').1
  · rw [bestOf_ensure_user, userStats_congr db _ _ (ensure_user_fields db tg).2.1]
    exact (h tg').2

/-- `resolveGoal` preserves the streak invariant. -/
theorem streakInv_resolveGoal (db : AppDB) (tg : Int) (h : StreakInv db) :
    StreakInv (resolveGoal db tg).1 := by
  intro tg'
  refine ⟨?_, ?_⟩
  · rw [curOf_resolveGoal, bestOf_resolveGoal]
    exact (h tg').1
  · rw [bestOf_resolveGoal, userStats_congr db _ _ (resolveGoal_fields db tg).2.1]
    exact (h tg').2

/-- The stats upsert preserves the streak invariant. -/
theorem streakInv_upsert (db : AppDB) (tg day g : Int) (h : StreakInv db) :
    StreakInv (upsert_daily_stats db tg day g).1 := by
  intro tg'
  refine ⟨(h tg').1, ?_⟩
  intro hb
  by_cases he : tg' = tg
  · subst he
    exact userStats_upsert_self db tg' day g
  · rw [userStats_upsert_other db tg day g tg' (fun hh => he hh.symm)]
    exact (h tg').2 hb

/-- An entries/nextId update preserves the streak invariant. -/
theorem streakInv_entriesUpdate (db : AppDB) (es : List Entry) (n : Int) (h : StreakInv db) :
    StreakInv { db with entries := es, nextId := n } :=
  h

/-- An entries filter preserves the streak invariant. -/
theorem streakInv_entriesOnly (db : AppDB) (es : List Entry) (h : StreakInv db) :
    StreakInv { db with entries := es } :=
  h

/-- `recompute_streaks_db` preserves the streak invariant. -/
theorem streakInv_recompute (db : AppDB) (tg today : Int) (h : StreakInv db) :
    StreakInv (recompute_streaks_db db tg today) := by
  intro tg'
  refine ⟨cur_le_best_recompute db tg today tg' (fun _ => (h tg').1), ?_⟩
  intro hb
  rw [userStats_congr db _ _ (recompute_streaks_db_fields db tg today).2.1]
  by_cases he : tg' = tg
  · subst he
    by_cases hs : userStats db tg' = []
    · exfalso
      rw [bestOf_recompute_empty db tg' today hs] at hb
      omega
    · exact hs
  · rw [bestOf_recompute_other db tg today tg' he] at hb
    exact (h tg').2 hb

/-- A `setUser` that preserves both streak counters preserves the streak
invariant. -/
theorem streakInv_setUser (db : AppDB) (tg : Int) (f : UserRow → UserRow)
    (hb : ∀ u, (f u).best_streak = u.best_streak)
    (hc : ∀ u, (f u).current_streak = u.current_streak)
    (h : StreakInv db) : StreakInv (setUser db tg f) := by
  intro tg'
  refine ⟨?_, ?_⟩
  · rw [curOf_setUser db tg tg' f hc, bestOf_setUser db tg tg' f hb]
    exact (h tg').1
  · rw [bestOf_setUser db tg tg' f hb]
    exact (h tg').2

/-! Per-request lemmas. -/

/-- `/api/add` never lowers any stored best streak. -/
theorem bestOf_api_add (db : AppDB) (tg ml : Int) (drink : String) (day tg' : Int) :
    bestOf db tg' ≤ bestOf (api_add db tg ml drink day).1 tg' := by
  unfold api_add
  split
  · exact le_refl _
  · exact le_trans
      (le_of_eq ((bestOf_ensure_user db tg tg').symm.trans
        ((bestOf_resolveGoal _ tg tg').symm.trans
          ((bestOf_upsert _ tg day _ tg').symm.trans
            ((bestOf_entriesUpdate _ _ _ tg').symm.trans
              (bestOf_upsert _ tg day _ tg').symm)))))
      (bestOf_recompute_ge' _ tg day tg' (Or.inl (userStats_upsert_self _ tg day _)))

/-- `/api/add` preserves the streak invariant. -/
theorem streakInv_api_add (db : AppDB) (tg ml : Int) (drink : String) (day : Int)
    (h : StreakInv db) : StreakInv (api_add db tg ml drink day).1 := by
  unfold api_add
  split
  · exact h
  · exact streakInv_recompute _ tg day (streakInv_upsert _ tg day _
      (streakInv_entriesUpdate _ _ _ (streakInv_upsert _ tg day _
        (streakInv_resolveGoal _ tg (streakInv_ensure db tg h)))))

/-- `/api/undo` never lowers any stored best streak. -/
theorem bestOf_api_undo (db : AppDB) (tg eid clientDay tg' : Int) :
    bestOf db tg' ≤ bestOf (api_undo db tg eid clientDay).1 tg' := by
  unfold api_undo
  split
  · exact le_refl _
  · split
    · exact le_of_eq (bestOf_ensure_user db tg tg').symm
    · exact le_trans
        (le_of_eq ((bestOf_ensure_user db tg tg').symm.trans
          ((bestOf_entriesOnly _ _ tg').symm.trans
            ((bestOf_upsert _ tg _ _ tg').symm.trans
              (bestOf_upsert _ tg clientDay _ tg').symm))))
        (bestOf_recompute_ge' _ tg clientDay tg'
          (Or.inl (userStats_upsert_self _ tg clientDay _)))

/-- `/api/undo` preserves the streak invariant. -/
theorem streakInv_api_undo (db : AppDB) (tg eid clientDay : Int)
    (h : StreakInv db) : StreakInv (api_undo db tg eid clientDay).1 := by
  unfold api_undo
  split
  · exact h
  · split
    · exact streakInv_ensure db tg h
    · exact streakInv_recompute _ tg clientDay (streakInv_upsert _ tg clientDay _
        (streakInv_upsert _ tg _ _ (streakInv_entriesOnly _ _ (streakInv_ensure db tg h))))

/-- `/api/profile` never touches any stored best streak. -/
theorem bestOf_api_profile (db : AppDB) (tg : Int) (w f g : Option Int) (day tg' : Int) :
    bestOf (api_profile db tg w f g day) tg' = bestOf db tg' := by
  unfold api_profile
  split
  · exact bestOf_ensure_user db tg tg'
  · refine (bestOf_upsert _ tg day _ tg').trans
      ((bestOf_setUser _ tg tg' _ ?_).trans (bestOf_ensure_user db tg tg'))
    exact fun _ => rfl

/-- `/api/profile` preserves the streak invariant. -/
theorem streakInv_api_profile (db : AppDB) (tg : Int) (w f g : Option Int) (day : Int)
    (h : StreakInv db) : StreakInv (api_profile db tg w f g day) := by
  unfold api_profile
  split
  · exact streakInv_ensure db tg h
  · refine streakInv_upsert _ tg day _ (streakInv_setUser _ tg _ ?_ ?_
      (streakInv_ensure db tg h))
    · exact fun _ => rfl
    · exact fun _ => rfl

/-- `/api/state` never lowers any stored best streak. -/
theorem bestOf_api_state (db : AppDB) (tg day tg' : Int) :
    bestOf db tg' ≤ bestOf (api_state db tg day) tg' := by
  unfold api_state
  refine le_trans (le_of_eq ?_)
    (bestOf_recompute_ge' _ tg day tg' (Or.inl (userStats_upsert_self _ tg day _)))
  rw [bestOf_upsert, bestOf_resolveGoal, bestOf_ensure_user]

/-- `/api/state` preserves the streak invariant. -/
theorem streakInv_api_state (db : AppDB) (tg day : Int)
    (h : StreakInv db) : StreakInv (api_state db tg day) := by
  unfold api_state
  exact streakInv_recompute _ tg day (streakInv_upsert _ tg day _
    (streakInv_resolveGoal _ tg (streakInv_ensure db tg h)))

/-- No request ever lowers any stored best streak. -/
theorem bestOf_step_mono (db : AppDB) (op : Op) (tg' : Int) :
    bestOf db tg' ≤ bestOf (step db op) tg' := by
  cases op with
  | add tg ml drink day => exact bestOf_api_add db tg ml drink day tg'
  | undo tg eid day => exact bestOf_api_undo db tg eid day tg'
  | profile tg w f g day => exact le_of_eq (bestOf_api_profile db tg w f g day tg').symm
  | state tg day => exact bestOf_api_state db tg day tg'

/-- Every request preserves the streak invariant. -/
theorem streakInv_step (db : AppDB) (op : Op) (h : StreakInv db) :
    StreakInv (step db op) := by
  cases op with
  | add tg ml drink day => exact streakInv_api_add db tg ml drink day h
  | undo tg eid day => exact streakInv_api_undo db tg eid day h
  | profile tg w f g day => exact streakInv_api_profile db tg w f g day h
  | state tg day => exact streakInv_api_state db tg day h

/-- The fresh database satisfies the streak invariant. -/
theorem streakInv_empty : StreakInv emptyDB := by
  intro tg
  exact ⟨le_refl _, fun hb => absurd hb (by simp [bestOf, userOf, emptyDB, lookupUser])⟩

/-- Every state reachable by a request sequence satisfies the streak
invariant. -/
theorem streakInv_runOps (ops : List Op) : StreakInv (runOps ops) := by
  have hfold : ∀ (l : List Op) (db : AppDB), StreakInv db → StreakInv (l.foldl step db) := by
    intro l
    induction l with
    | nil => exact fun db h => h
    | cons o t ih => exact fun db h => ih _ (streakInv_step db o h)
  exact hfold ops emptyDB streakInv_empty

/-! Lemmas about the `src/db.py` variant. -/

/-- A daily-stats upsert is idempotent on the stored list. -/
theorem upsertStat_idem (row : Stat) : ∀ l, upsertStat row (upsertStat row l) = upsertStat row l := by
  intro l
  induction l with
  | nil => simp [upsertStat]
  | cons s t ih =>
    simp only [upsertStat]
    split
    · simp [upsertStat]
    · next hns => simp only [upsertStat, if_neg hns, ih]

/-- The app-variant daily-stat refresh is idempotent on the whole state and
on the returned row. -/
theorem upsert_daily_stats_idem (db : AppDB) (tg day g : Int) :
    upsert_daily_stats (upsert_daily_stats db tg day g).1 tg day g =
      upsert_daily_stats db tg day g := by
  unfold upsert_daily_stats
  dsimp only
  rw [upsertStat_idem]

/-- Looking up the day just upserted returns the upserted row. -/
theorem Db.lookupDbStat_upsert_self (row : Db.DbStat) :
    ∀ l, Db.lookupDbStat (Db.upsertDbStat row l) row.day = some row := by
  intro l
  induction l with
  | nil => simp [Db.upsertDbStat, Db.lookupDbStat]
  | cons s t ih =>
    simp only [Db.upsertDbStat]
    split
    · simp [Db.lookupDbStat]
    · next h => simp only [Db.lookupDbStat, if_neg h, ih]

/-- Day-done state of the day just refreshed: the stored comparison of the
fresh row (with no positivity guard on the goal). -/
theorem Db.get_day_done_upsert_self (row : Db.DbStat) (l : List Db.DbStat) :
    Db.get_day_done (Db.upsertDbStat row l) row.day = decide (row.goal_ml ≤ row.total_ml) := by
  unfold Db.get_day_done
  rw [Db.lookupDbStat_upsert_self]

/-- `update_streak` is a no-op when the day is not done. -/
theorem Db.update_streak_not_done (stats : List Db.DbStat) (u : Db.DbUser) (d : Int)
    (h : Db.get_day_done stats d = false) : Db.update_streak stats u d = u := by
  simp [Db.update_streak, h]

/-- `update_streak` is a no-op when the last streak update was already on
the given date. -/
theorem Db.update_streak_same_date (stats : List Db.DbStat) (u : Db.DbUser) (d : Int)
    (h : u.last_streak_date = some d) : Db.update_streak stats u d = u := by
  unfold Db.update_streak
  split
  · rw [h]
    simp
  · rfl

/-- When the day is done, the committed last-streak date is the given date. -/
theorem Db.update_streak_last_done (stats : List Db.DbStat) (u : Db.DbUser) (d : Int)
    (h : Db.get_day_done stats d = true) :
    (Db.update_streak stats u d).last_streak_date = some d := by
  unfold Db.update_streak
  rw [h]
  simp only [if_true]
  cases hl : u.last_streak_date with
  | none => rfl
  | some l =>
    dsimp only
    split
    · next h0 =>
      rw [hl]
      have : l = d := by omega
      rw [this]
    · split <;> rfl

/-- `update_streak` never touches the stored goal. -/
theorem Db.update_streak_goal (stats : List Db.DbStat) (u : Db.DbUser) (d : Int) :
    (Db.update_streak stats u d).goal_ml = u.goal_ml := by
  unfold Db.update_streak
  split
  · cases hl : u.last_streak_date with
    | none => rfl
    | some l =>
      dsimp only
      split
      · rfl
      · split <;> rfl
  · rfl

/-- Either `update_streak` mutated the profile (and then stamped the date),
or it was a no-op. -/
theorem Db.update_streak_stamp_or_id (stats : List Db.DbStat) (u : Db.DbUser) (d : Int) :
    (Db.update_streak stats u d).last_streak_date = some d ∨
    Db.update_streak stats u d = u := by
  by_cases h : Db.get_day_done stats d = true
  · exact Or.inl (Db.update_streak_last_done stats u d h)
  · exact Or.inr (Db.update_streak_not_done stats u d (Bool.eq_false_iff.mpr h))

/-- Day-done after an upsert, with the row spelled out. -/
theorem Db.get_day_done_upsert (day total goal n : Int) (l : List Db.DbStat) :
    Db.get_day_done (Db.upsertDbStat ⟨day, total, goal, n⟩ l) day = decide (goal ≤ total) :=
  Db.get_day_done_upsert_self ⟨day, total, goal, n⟩ l

/-- Lookup after an upsert, with the row spelled out. -/
theorem Db.lookupDbStat_upsert (day total goal n : Int) (l : List Db.DbStat) :
    Db.lookupDbStat (Db.upsertDbStat ⟨day, total, goal, n⟩ l) day = some ⟨day, total, goal, n⟩ :=
  Db.lookupDbStat_upsert_self ⟨day, total, goal, n⟩ l

/-- Refreshing the same day twice with no intervening log change leaves the
profile and the log as after the first refresh, and leaves the stored row's
total and goal unchanged (only `updated_utc` can differ). -/
theorem Db.refresh_refresh (w : Db.WDB) (d n₁ n₂ : Int) :
    (Db.refresh_daily_stats_for_date (Db.refresh_daily_stats_for_date w d n₁) d n₂).user =
      (Db.refresh_daily_stats_for_date w d n₁).user ∧
    (Db.refresh_daily_stats_for_date (Db.refresh_daily_stats_for_date w d n₁) d n₂).log =
      (Db.refresh_daily_stats_for_date w d n₁).log ∧
    Option.map (fun r => (r.total_ml, r.goal_ml))
        (Db.lookupDbStat
          (Db.refresh_daily_stats_for_date (Db.refresh_daily_stats_for_date w d n₁) d n₂).stats d) =
      Option.map (fun r => (r.total_ml, r.goal_ml))
        (Db.lookupDbStat (Db.refresh_daily_stats_for_date w d n₁).stats d) := by
  unfold Db.refresh_daily_stats_for_date
  dsimp only
  refine ⟨?_, rfl, ?_⟩
  · by_cases hdone :
      Db.get_day_done (Db.upsertDbStat ⟨d, Db.total_for_date w.log d, w.user.goal_ml, n₁⟩ w.stats)
        d = true
    · exact Db.update_streak_same_date _ _ _ (Db.update_streak_last_done _ _ _ hdone)
    · apply Db.update_streak_not_done
      rw [Db.get_day_done_upsert, Db.update_streak_goal]
      rw [Db.get_day_done_upsert] at hdone
      simpa using hdone
  · rw [Db.lookupDbStat_upsert, Db.lookupDbStat_upsert]
    simp only [Option.map_some']
    rw [Db.update_streak_goal]

/-! Shape lemmas for the request handlers. -/

/-- Entries are untouched by `ensure_user`. -/
theorem entries_ensure_user (db : AppDB) (tg : Int) :
    (ensure_user db tg).entries = db.entries := (ensure_user_fields db tg).1

/-- The id counter is untouched by `ensure_user`. -/
theorem nextId_ensure_user (db : AppDB) (tg : Int) :
    (ensure_user db tg).nextId = db.nextId := (ensure_user_fields db tg).2.2

/-- Entries are untouched by `resolveGoal`. -/
theorem entries_resolveGoal (db : AppDB) (tg : Int) :
    (resolveGoal db tg).1.entries = db.entries := (resolveGoal_fields db tg).1

/-- The id counter is untouched by `resolveGoal`. -/
theorem nextId_resolveGoal (db : AppDB) (tg : Int) :
    (resolveGoal db tg).1.nextId = db.nextId := (resolveGoal_fields db tg).2.2

/-- Entries are untouched by the stats upsert. -/
theorem entries_upsert (db : AppDB) (tg day g : Int) :
    (upsert_daily_stats db tg day g).1.entries = db.entries := rfl

/-- The id counter is untouched by the stats upsert. -/
theorem nextId_upsert (db : AppDB) (tg day g : Int) :
    (upsert_daily_stats db tg day g).1.nextId = db.nextId := rfl

/-- Entries are untouched by the streak recompute. -/
theorem entries_recompute (db : AppDB) (tg today : Int) :
    (recompute_streaks_db db tg today).entries = db.entries :=
  (recompute_streaks_db_fields db tg today).1

/-- Stats are untouched by the streak recompute. -/
theorem stats_recompute (db : AppDB) (tg today : Int) :
    (recompute_streaks_db db tg today).stats = db.stats :=
  (recompute_streaks_db_fields db tg today).2.1

/-- The id counter is untouched by the streak recompute. -/
theorem nextId_recompute (db : AppDB) (tg today : Int) :
    (recompute_streaks_db db tg today).nextId = db.nextId :=
  (recompute_streaks_db_fields db tg today).2.2

/-- The stats list after an upsert, spelled out. -/
theorem stats_upsert (db : AppDB) (tg day g : Int) :
    (upsert_daily_stats db tg day g).1.stats =
      upsertStat
        { tg := tg, day := day, total_ml := sumDay db.entries tg day, goal_ml := g,
          met_goal := decide (0 < g ∧ g ≤ sumDay db.entries tg day) } db.stats := rfl

/-- Ledger sum after appending one entry. -/
theorem sumDay_append (l : List Entry) (e : Entry) (tg day : Int) :
    sumDay (l ++ [e]) tg day =
      sumDay l tg day + (if e.tg = tg ∧ e.day = day then e.effective_ml else 0) := by
  induction l with
  | nil => simp [sumDay]
  | cons x t ih =>
    show (if x.tg = tg ∧ x.day = day then x.effective_ml else 0) + sumDay (t ++ [e]) tg day =
      ((if x.tg = tg ∧ x.day = day then x.effective_ml else 0) + sumDay t tg day) +
        (if e.tg = tg ∧ e.day = day then e.effective_ml else 0)
    rw [ih]
    ring

/-- Looking up the key just upserted returns the upserted row. -/
theorem lookupStat_upsert_self (row : Stat) :
    ∀ l, lookupStat (upsertStat row l) row.tg row.day = some row := by
  intro l
  induction l with
  | nil => simp [upsertStat, lookupStat]
  | cons s t ih =>
    simp only [upsertStat]
    split
    · simp [lookupStat]
    · next h => simp only [lookupStat, if_neg h, ih]

/-- Lookup after an upsert, with the row spelled out. -/
theorem lookupStat_upsert (tg day total goal : Int) (met : Bool) (l : List Stat) :
    lookupStat (upsertStat ⟨tg, day, total, goal, met⟩ l) tg day =
      some ⟨tg, day, total, goal, met⟩ :=
  lookupStat_upsert_self ⟨tg, day, total, goal, met⟩ l

/-- A valid `/api/add` returns the fresh entry id and appends exactly one
immutable entry carrying the normalized drink type and the effective amount
computed at insert time. -/
theorem api_add_valid_shape (db : AppDB) (tg ml : Int) (drink : String) (day : Int)
    (h1 : ¬(ml ≤ 0 ∨ 5000 < ml)) :
    (api_add db tg ml drink day).2 = Except.ok db.nextId ∧
    (api_add db tg ml drink day).1.entries = db.entries ++
      [{ id := db.nextId, tg := tg, day := day, drink := normalizeDrink drink, raw_ml := ml,
         effective_ml := effectiveOf (normalizeDrink drink) ml }] := by
  unfold api_add
  rw [if_neg h1]
  dsimp only
  constructor
  · rw [nextId_upsert, nextId_resolveGoal, nextId_ensure_user]
  · rw [entries_recompute, entries_upsert]
    dsimp only
    rw [entries_upsert, entries_resolveGoal, entries_ensure_user,
      nextId_upsert, nextId_resolveGoal, nextId_ensure_user]

/-- The stats table after a valid `/api/add`: the day's row was refreshed
last with the post-insert total and the resolved goal. -/
theorem api_add_stats (db : AppDB) (tg ml : Int) (drink : String) (day : Int)
    (h1 : ¬(ml ≤ 0 ∨ 5000 < ml)) :
    lookupStat (api_add db tg ml drink day).1.stats tg day =
      some { tg := tg, day := day,
             total_ml := sumDay db.entries tg day + effectiveOf (normalizeDrink drink) ml,
             goal_ml := (resolveGoal (ensure_user db tg) tg).2,
             met_goal := decide (0 < (resolveGoal (ensure_user db tg) tg).2 ∧
               (resolveGoal (ensure_user db tg) tg).2 ≤
                 sumDay db.entries tg day + effectiveOf (normalizeDrink drink) ml) } := by
  unfold api_add
  rw [if_neg h1]
  dsimp only
  rw [stats_recompute, stats_upsert]
  dsimp only
  have hsum : sumDay ((upsert_daily_stats (resolveGoal (ensure_user db tg) tg).1 tg day
        (resolveGoal (ensure_user db tg) tg).2).1.entries ++
      [{ id := (upsert_daily_stats (resolveGoal (ensure_user db tg) tg).1 tg day
            (resolveGoal (ensure_user db tg) tg).2).1.nextId,
         tg := tg, day := day, drink := normalizeDrink drink, raw_ml := ml,
         effective_ml := effectiveOf (normalizeDrink drink) ml }]) tg day =
      sumDay db.entries tg day + effectiveOf (normalizeDrink drink) ml := by
    rw [sumDay_append, entries_upsert, entries_resolveGoal, entries_ensure_user]
    simp
  rw [hsum]
  exact lookupStat_upsert _ _ _ _ _ _

/-- `resolveGoal` of a user with non-positive stored goal and non-positive
weight (including the freshly provisioned default profile) yields a
non-positive goal. -/
theorem resolveGoal_nonpos (db : AppDB) (tg : Int)
    (hu : ∀ u, userOf db tg = some u → u.goal_ml ≤ 0 ∧ u.weight_kg ≤ 0) :
    (resolveGoal (ensure_user db tg) tg).2 ≤ 0 := by
  unfold resolveGoal
  rw [userOf_ensure_user, if_pos rfl]
  cases huser : userOf db tg with
  | none =>
    simp [defaultUser]
  | some u =>
    have h := hu u huser
    dsimp only [Option.getD_some]
    rw [if_neg (fun hc => by omega)]
    exact h.1

/-- `resolveGoal` keeps an already-positive stored goal. -/
theorem resolveGoal_of_pos (db : AppDB) (tg : Int) (u : UserRow)
    (hu : userOf db tg = some u) (hg : 0 < u.goal_ml) :
    (resolveGoal (ensure_user db tg) tg).2 = u.goal_ml := by
  unfold resolveGoal
  rw [userOf_ensure_user, if_pos rfl, hu]
  dsimp only [Option.getD_some]
  rw [if_neg (fun hc => by omega)]

/-- The stats upsert does not touch the users table (lookup form). -/
theorem userOf_upsert (db : AppDB) (tg day g tg' : Int) :
    userOf (upsert_daily_stats db tg day g).1 tg' = userOf db tg' := rfl

/-- Profile row stored by `/api/profile` for an existing user: each supplied
field clamped, goal recomputed from the formula when weight or factor was
supplied without an explicit goal. -/
theorem api_profile_userOf (db : AppDB) (tg : Int) (w f g : Option Int) (day : Int)
    (u : UserRow) (hu : userOf db tg = some u) :
    userOf (api_profile db tg w f g day) tg =
      some { u with
        weight_kg := match w with | some x => max 0 (min 300 x) | none => u.weight_kg,
        factor_ml := match f with | some x => max 30 (min 35 x) | none => u.factor_ml,
        goal_ml :=
          if g.isNone ∧ (w.isSome ∨ f.isSome) then
            if 0 < calc_goal (match w with | some x => max 0 (min 300 x) | none => u.weight_kg)
                (match f with | some x => max 30 (min 35 x) | none => u.factor_ml) then
              calc_goal (match w with | some x => max 0 (min 300 x) | none => u.weight_kg)
                (match f with | some x => max 30 (min 35 x) | none => u.factor_ml)
            else match g with | some x => max 0 (min 10000 x) | none => u.goal_ml
          else match g with | some x => max 0 (min 10000 x) | none => u.goal_ml } := by
  have hs : userOf (ensure_user db tg) tg = some u := by
    rw [userOf_ensure_user, if_pos rfl, hu]
    rfl
  unfold api_profile
  rw [hs]
  dsimp only
  rw [userOf_upsert, userOf_setUser, if_pos rfl, hs]
  rfl

/-- `/api/undo` outcome description: non-positive ids are rejected with a
validation error and no state change; an id that does not match an owned
entry yields NotFound with the user ensured but ledger, stats and streaks
untouched; an owned entry is deleted. -/
theorem api_undo_shape (db : AppDB) (tg eid clientDay : Int) :
    (eid ≤ 0 → api_undo db tg eid clientDay = (db, Except.error ApiErr.validation)) ∧
    (¬ eid ≤ 0 →
      (ensure_user db tg).entries.find? (fun e => e.id == eid && e.tg == tg) = none →
      api_undo db tg eid clientDay = (ensure_user db tg, Except.error ApiErr.notFound)) ∧
    (∀ e, ¬ eid ≤ 0 →
      (ensure_user db tg).entries.find? (fun x => x.id == eid && x.tg == tg) = some e →
      (api_undo db tg eid clientDay).2 = Except.ok () ∧
      (api_undo db tg eid clientDay).1.entries =
        (ensure_user db tg).entries.filter (fun x => !(x.id == eid && x.tg == tg))) := by
  refine ⟨?_, ?_, ?_⟩
  · intro h
    unfold api_undo
    rw [if_pos h]
  · intro hpos hnone
    unfold api_undo
    rw [if_neg hpos, hnone]
  · intro e hpos hfound
    unfold api_undo
    rw [if_neg hpos, hfound]
    dsimp only
    refine ⟨rfl, ?_⟩
    rw [entries_recompute, entries_upsert, entries_upsert]

/-! Claim C1. -/

/-- C1 (amended): after a streak update by the full-history variant
(`recompute_streaks` in `src/app.py`), provided no materialized Daily Stat
row is dated after the reference date, the stored current streak equals the
count of consecutive goal-met days ending at the reference date (walking
backward one calendar day at a time, a missing or unmet day terminating the
walk), and the stored best streak is at least the length of every run of
consecutive met calendar days in the history.  In the spec's example with
met-flags [1,1,0,1,1,1,1] over days D-6..D the current streak at D is 4
(not 3 as the claim states), and the best streak is at least 2. -/
theorem C1_amended_streak_walk (rows : List Stat) (today : Int) (oldBest : Nat)
    (hsorted : rows.Pairwise (fun a b => a.day < b.day))
    (hle : ∀ r ∈ rows, r.day ≤ today) :
    (recompute_streaks rows today oldBest).1 = specCurrentStreak rows today ∧
    ∀ (d : Int) (k : Nat), (∀ i : Nat, i < k → metOn rows (d - (i : Int)) = true) →
      k ≤ (recompute_streaks rows today oldBest).2 := by
  unfold recompute_streaks
  by_cases hnil : rows.isEmpty
  · have hr : rows = [] := List.isEmpty_iff.mp hnil
    subst hr
    constructor
    · rw [if_pos hnil]
      simp [specCurrentStreak, consecMetAux]
    · intro d k hmet
      rw [if_pos hnil]
      cases k with
      | zero => exact Nat.le_refl 0
      | succ m =>
        exfalso
        have h0 := hmet 0 (by omega)
        simp [metOn] at h0
  · constructor
    · rw [if_neg hnil]
      exact currentWalk_reverse_eq_spec rows today hsorted hle
    · intro d k hmet
      rw [if_neg hnil]
      cases Nat.eq_zero_or_pos k with
      | inl h0 => subst h0; exact Nat.zero_le _
      | inr hk =>
        obtain ⟨p, s, q, hL, hlen, hms⟩ := run_decomp rows hsorted d k hk hmet
        have hb := bestScan_infix p s q hms 0 0
        rw [← hL] at hb
        calc k = s.length := hlen.symm
          _ ≤ bestScan rows 0 0 := hb
          _ ≤ max oldBest (bestScan rows 0 0) := le_max_right _ _

/-- C1 counterexample: for the claim's own example — met-flags
[1,1,0,1,1,1,1] over days 0..6 — the code stores a current streak of 4
at day 6, not 3 as claimed (days 3,4,5,6 are met and day 2 breaks the walk);
moreover, when a materialized row is dated after the reference date (days 0
and 1 both met, reference date 0), the walk starts at the latest row, sees a
date mismatch and stores 0, while the claimed count of consecutive met days
ending at day 0 is 1. -/
theorem C1_cex :
    (recompute_streaks
      [⟨1, 0, 2000, 2000, true⟩, ⟨1, 1, 2000, 2000, true⟩, ⟨1, 2, 0, 2000, false⟩,
       ⟨1, 3, 2000, 2000, true⟩, ⟨1, 4, 2000, 2000, true⟩, ⟨1, 5, 2000, 2000, true⟩,
       ⟨1, 6, 2000, 2000, true⟩] 6 0).1 = 4 ∧
    ¬ ((recompute_streaks
      [⟨1, 0, 2000, 2000, true⟩, ⟨1, 1, 2000, 2000, true⟩, ⟨1, 2, 0, 2000, false⟩,
       ⟨1, 3, 2000, 2000, true⟩, ⟨1, 4, 2000, 2000, true⟩, ⟨1, 5, 2000, 2000, true⟩,
       ⟨1, 6, 2000, 2000, true⟩] 6 0).1 = 3) ∧
    (recompute_streaks [⟨1, 0, 2000, 2000, true⟩, ⟨1, 1, 2000, 2000, true⟩] 0 0).1 = 0 ∧
    specCurrentStreak [⟨1, 0, 2000, 2000, true⟩, ⟨1, 1, 2000, 2000, true⟩] 0 = 1 := by
  refine ⟨by decide, by decide, by decide, by decide⟩

/-- C1 witness: the amended theorem applied to a concrete two-day history. -/
theorem C1_amended_witness :
    ([⟨1, 5, 2400, 2310, true⟩, ⟨1, 6, 2500, 2310, true⟩] : List Stat).Pairwise
      (fun a b => a.day < b.day) ∧
    (recompute_streaks [⟨1, 5, 2400, 2310, true⟩, ⟨1, 6, 2500, 2310, true⟩] 6 0).1 =
      specCurrentStreak [⟨1, 5, 2400, 2310, true⟩, ⟨1, 6, 2500, 2310, true⟩] 6 :=
  ⟨by decide,
    (C1_amended_streak_walk [⟨1, 5, 2400, 2310, true⟩, ⟨1, 6, 2500, 2310, true⟩] 6 0
      (by decide) (by decide)).1⟩

/-! Claim C2. -/

/-- C2 (amended): the daily-stat refresh is idempotent up to the refresh
timestamp.  In the `src/app.py` variant (`upsert_daily_stats`) a second call
with no intervening ledger change reproduces the identical stored state and
row.  In the `src/db.py` variant (`refresh_daily_stats_for_date`) a second
call leaves the profile and the log exactly as after the first and stores
the same `total_ml` and `goal_ml`; only the `updated_utc` audit column
records the later wall-clock time. -/
theorem C2_amended_refresh_idempotent :
    (∀ (db : AppDB) (tg day g : Int),
      upsert_daily_stats (upsert_daily_stats db tg day g).1 tg day g =
        upsert_daily_stats db tg day g) ∧
    (∀ (w : Db.WDB) (d n₁ n₂ : Int),
      (Db.refresh_daily_stats_for_date (Db.refresh_daily_stats_for_date w d n₁) d n₂).user =
        (Db.refresh_daily_stats_for_date w d n₁).user ∧
      (Db.refresh_daily_stats_for_date (Db.refresh_daily_stats_for_date w d n₁) d n₂).log =
        (Db.refresh_daily_stats_for_date w d n₁).log ∧
      Option.map (fun r => (r.total_ml, r.goal_ml))
          (Db.lookupDbStat (Db.refresh_daily_stats_for_date
            (Db.refresh_daily_stats_for_date w d n₁) d n₂).stats d) =
        Option.map (fun r => (r.total_ml, r.goal_ml))
          (Db.lookupDbStat (Db.refresh_daily_stats_for_date w d n₁).stats d)) :=
  ⟨upsert_daily_stats_idem, Db.refresh_refresh⟩

/-- C2 counterexample: in the `src/db.py` variant the stored Daily Stat row
is not identical after a second refresh with no ledger change — its
`updated_utc` column changes with the wall clock (refresh at time 10, then
at time 11). -/
theorem C2_cex :
    Db.lookupDbStat (Db.refresh_daily_stats_for_date
        (Db.refresh_daily_stats_for_date
          ⟨⟨none, 33, 2000, 0, 0, none⟩, [], []⟩ 0 10) 0 11).stats 0 ≠
      Db.lookupDbStat (Db.refresh_daily_stats_for_date
        ⟨⟨none, 33, 2000, 0, 0, none⟩, [], []⟩ 0 10).stats 0 := by
  decide

/-! Claim C3. -/

/-- C3 (amended): in the `src/app.py` variant the materialized met-goal flag
stored by the refresh equals `goal > 0 ∧ total ≥ goal` over the day's summed
effective amounts, so a day with a non-positive goal is never met; in the
`src/db.py` variant the day-done check compares `total ≥ goal` with no
positivity guard, so a day whose stored goal is 0 counts as done for any
total. -/
theorem C3_amended_met_flag :
    (∀ (db : AppDB) (tg day g : Int),
      ((upsert_daily_stats db tg day g).2.met_goal = true ↔
        (0 < g ∧ g ≤ sumDay db.entries tg day)) ∧
      lookupStat (upsert_daily_stats db tg day g).1.stats tg day =
        some (upsert_daily_stats db tg day g).2 ∧
      (g ≤ 0 → (upsert_daily_stats db tg day g).2.met_goal = false)) ∧
    (∀ (stats : List Db.DbStat) (d : Int) (r : Db.DbStat),
      Db.lookupDbStat stats d = some r →
      Db.get_day_done stats d = decide (r.goal_ml ≤ r.total_ml)) := by
  constructor
  · intro db tg day g
    refine ⟨?_, ?_, ?_⟩
    · exact decide_eq_true_iff
    · exact lookupStat_upsert_self _ db.stats
    · intro hg
      simp only [upsert_daily_stats]
      rw [decide_eq_false_iff_not]
      intro hc
      omega
  · intro stats d r hr
    unfold Db.get_day_done
    rw [hr]

/-- C3 witness: the amended theorem applied at a concrete refresh and at a
concrete stored row. -/
theorem C3_witness :
    ((upsert_daily_stats emptyDB 1 0 2000).2.met_goal = true ↔
      (0 < (2000 : Int) ∧ (2000 : Int) ≤ sumDay emptyDB.entries 1 0)) ∧
    Db.get_day_done [⟨0, 500, 400, 9⟩] 0 = decide ((400 : Int) ≤ 500) :=
  ⟨(C3_amended_met_flag.1 emptyDB 1 0 2000).1,
    C3_amended_met_flag.2 [⟨0, 500, 400, 9⟩] 0 ⟨0, 500, 400, 9⟩ (by decide)⟩

/-- C3 counterexample: a stored `src/db.py` daily row with total 0 and goal
0 is counted as done, while the claimed formula `goal > 0 ∧ total ≥ goal`
is false there. -/
theorem C3_cex :
    Db.get_day_done [⟨0, 0, 0, 5⟩] 0 = true ∧
    Db.get_day_done [⟨0, 0, 0, 5⟩] 0 ≠ decide (0 < (0 : Int) ∧ (0 : Int) ≤ 0) := by
  refine ⟨by decide, by decide⟩

/-! Claim C4. -/

/-- `update_streak` commits `best = max(best, current)`, so the stored best
streak never decreases. -/
theorem Db.update_streak_best_mono (stats : List Db.DbStat) (u : Db.DbUser) (d : Int) :
    u.best_streak ≤ (Db.update_streak stats u d).best_streak := by
  unfold Db.update_streak
  split
  · cases hl : u.last_streak_date with
    | none => exact le_max_left _ _
    | some l =>
      dsimp only
      split
      · exact le_refl _
      · split
        · exact le_max_left _ _
        · exact le_max_left _ _
  · exact le_refl _

/-- `update_streak` keeps the stored best streak at least the stored current
streak. -/
theorem Db.update_streak_cur_le_best (stats : List Db.DbStat) (u : Db.DbUser) (d : Int)
    (h : u.current_streak ≤ u.best_streak) :
    (Db.update_streak stats u d).current_streak ≤ (Db.update_streak stats u d).best_streak := by
  unfold Db.update_streak
  split
  · cases hl : u.last_streak_date with
    | none => exact le_max_right _ _
    | some l =>
      dsimp only
      split
      · exact h
      · split
        · exact le_max_right _ _
        · exact le_max_right _ _
  · exact h

/-- No `Database` method ever lowers the stored best streak. -/
theorem Db.wstep_best_mono (w : Db.WDB) (op : Db.WOp) :
    w.user.best_streak ≤ (Db.wstep w op).user.best_streak := by
  cases op with
  | setWeight x => exact le_refl _
  | setFactor k => exact le_refl _
  | setGoal g => exact le_refl _
  | recomputeGoal =>
    show w.user.best_streak ≤ (Db.recompute_goal_from_formula w.user).1.best_streak
    unfold Db.recompute_goal_from_formula
    cases w.user.weight_kg with
    | none => exact le_refl _
    | some wv =>
      dsimp only
      split
      · exact le_refl _
      · exact le_refl _
  | addWater day amount now => exact Db.update_streak_best_mono _ _ day
  | refresh day now => exact Db.update_streak_best_mono _ _ day
  | updateStreak day => exact Db.update_streak_best_mono _ _ day

/-- Every `Database` method keeps current streak at most best streak. -/
theorem Db.wstep_cur_le_best (w : Db.WDB) (op : Db.WOp)
    (h : w.user.current_streak ≤ w.user.best_streak) :
    (Db.wstep w op).user.current_streak ≤ (Db.wstep w op).user.best_streak := by
  cases op with
  | setWeight x => exact h
  | setFactor k => exact h
  | setGoal g => exact h
  | recomputeGoal =>
    show (Db.recompute_goal_from_formula w.user).1.current_streak ≤
      (Db.recompute_goal_from_formula w.user).1.best_streak
    unfold Db.recompute_goal_from_formula
    cases w.user.weight_kg with
    | none => exact h
    | some wv =>
      dsimp only
      split
      · exact h
      · exact h
  | addWater day amount now => exact Db.update_streak_cur_le_best _ _ day h
  | refresh day now => exact Db.update_streak_cur_le_best _ _ day h
  | updateStreak day => exact Db.update_streak_cur_le_best _ _ day h

/-- Every state reachable by a `Database` method sequence keeps current
streak at most best streak. -/
theorem Db.cur_le_best_runWOps (k : Int) (ops : List Db.WOp) :
    (Db.runWOps k ops).user.current_streak ≤ (Db.runWOps k ops).user.best_streak := by
  have hfold : ∀ (l : List Db.WOp) (w : Db.WDB),
      w.user.current_streak ≤ w.user.best_streak →
      (l.foldl Db.wstep w).user.current_streak ≤ (l.foldl Db.wstep w).user.best_streak := by
    intro l
    induction l with
    | nil => exact fun w h => h
    | cons o t ih => exact fun w h => ih _ (Db.wstep_cur_le_best w o h)
  exact hfold ops (Db.initWDB k) (le_refl 0)

/-- C4: in the `src/app.py` variant, over every request sequence (adds,
undos, profile changes, and state refreshes with their streak updates), the
stored best streak of every user never decreases at any step and at every
reachable state it is at least the stored current streak; in the
`src/db.py` variant, over every `Database` method sequence from a freshly
provisioned user (setters, goal recompute, water adds, refreshes and streak
updates), the stored best streak likewise never decreases at any step and at
every reachable state it is at least the stored current streak. -/
theorem C4_best_streak_monotone :
    (∀ (ops : List Op) (op : Op) (tg : Int),
      bestOf (runOps ops) tg ≤ bestOf (step (runOps ops) op) tg ∧
      curOf (runOps ops) tg ≤ bestOf (runOps ops) tg) ∧
    (∀ (k : Int) (ops : List Db.WOp) (op : Db.WOp),
      (Db.runWOps k ops).user.best_streak ≤ (Db.wstep (Db.runWOps k ops) op).user.best_streak ∧
      (Db.runWOps k ops).user.current_streak ≤ (Db.runWOps k ops).user.best_streak) :=
  ⟨fun ops op tg => ⟨bestOf_step_mono (runOps ops) op tg, (streakInv_runOps ops tg).1⟩,
    fun k ops op => ⟨Db.wstep_best_mono (Db.runWOps k ops) op, Db.cur_le_best_runWOps k ops⟩⟩

/-! Claim C5. -/

/-- C5 (amended): in the `src/app.py` variant, while a user's stored goal
and weight are not positive (in particular for a freshly provisioned user,
whose defaults are goal 0 and weight 0), a valid add of any amount leaves
the day's met-goal flag false; setting weight 70 through the profile handler
(with the default factor 33) stores goal 2310; and once the stored goal is
2310, an add that brings the day's effective total to exactly 2310 sets the
met-goal flag true.  In the `src/db.py` variant, however, a newly
provisioned user's goal is 2000, not 0. -/
theorem C5_amended_new_user_goal :
    (∀ (db : AppDB) (tg ml : Int) (drink : String) (day : Int),
      ¬ (ml ≤ 0 ∨ 5000 < ml) →
      (∀ u, userOf db tg = some u → u.goal_ml ≤ 0 ∧ u.weight_kg ≤ 0) →
      Option.map (fun r => r.met_goal)
        (lookupStat (api_add db tg ml drink day).1.stats tg day) = some false) ∧
    (∀ (db : AppDB) (tg day : Int) (u : UserRow),
      userOf db tg = some u → u.factor_ml = 33 →
      Option.map (fun v => v.goal_ml)
        (userOf (api_profile db tg (some 70) none none day) tg) = some 2310) ∧
    (∀ (db : AppDB) (tg ml : Int) (drink : String) (day : Int) (u : UserRow),
      ¬ (ml ≤ 0 ∨ 5000 < ml) →
      userOf db tg = some u → u.goal_ml = 2310 →
      sumDay db.entries tg day + effectiveOf (normalizeDrink drink) ml = 2310 →
      Option.map (fun r => r.met_goal)
        (lookupStat (api_add db tg ml drink day).1.stats tg day) = some true) ∧
    (Db.ensure_user none 33).goal_ml = 2000 := by
  refine ⟨?_, ?_, ?_, rfl⟩
  · intro db tg ml drink day hml hu
    rw [api_add_stats db tg ml drink day hml]
    have hG := resolveGoal_nonpos db tg hu
    simp only [Option.map_some', Option.some.injEq, decide_eq_false_iff_not]
    intro hc
    omega
  · intro db tg day u hu hf
    rw [api_profile_userOf db tg (some 70) none none day u hu]
    simp only [Option.map_some', Option.some.injEq]
    rw [hf]
    norm_num [calc_goal]
  · intro db tg ml drink day u hml hu hg hsum
    rw [api_add_stats db tg ml drink day hml]
    have hG := resolveGoal_of_pos db tg u hu (by omega)
    simp only [Option.map_some', Option.some.injEq]
    rw [hG, hg, hsum]
    decide

/-- C5 witness: the amended theorem applied on the fresh database — a 500 mL
add for a user with no profile row leaves the met flag false — and on the
`src/db.py` defaults. -/
theorem C5_witness :
    Option.map (fun r => r.met_goal)
      (lookupStat (api_add emptyDB 1 500 "water" 0).1.stats 1 0) = some false :=
  C5_amended_new_user_goal.1 emptyDB 1 500 "water" 0 (by decide)
    (fun u h => by simp [userOf, emptyDB, lookupUser] at h)

/-- C5 counterexample: the claim says a newly provisioned user with no
weight has goal 0, but `src/db.py`'s `ensure_user` provisions goal 2000. -/
theorem C5_cex :
    (Db.ensure_user none 33).goal_ml = 2000 ∧ (Db.ensure_user none 33).goal_ml ≠ 0 := by
  refine ⟨rfl, by decide⟩

/-! Claim C6. -/

/-- C6 (amended): in the `src/app.py` variant, `calc_goal` clamps the factor
to [30, 35] — for positive weight the goal always lies between weight×30 and
weight×35, equals weight×factor for in-range factors, and 70 with 33 yields
2310.  In the `src/db.py` variant, `set_factor` stores an arbitrary factor
unclamped and `recompute_goal_from_formula` multiplies the stored weight by
the stored factor with no clamping, so an out-of-range stored factor
produces an unclamped goal. -/
theorem C6_amended_goal_clamp :
    (∀ w f : Int, 0 < w →
      w * 30 ≤ calc_goal w f ∧ calc_goal w f ≤ w * 35 ∧
      (30 ≤ f → f ≤ 35 → calc_goal w f = w * f)) ∧
    calc_goal 70 33 = 2310 ∧
    (∀ (u : Db.DbUser) (wv : Int), u.weight_kg = some wv → wv ≠ 0 →
      (Db.recompute_goal_from_formula u).2 = wv * u.ml_per_kg) ∧
    (∀ (u : Db.DbUser) (k : Int), (Db.set_factor u k).ml_per_kg = k) := by
  refine ⟨?_, by decide, ?_, fun u k => rfl⟩
  · intro w f hw
    unfold calc_goal
    rw [if_neg (by omega)]
    have hclamp1 : (30 : Int) ≤ max 30 (min 35 f) := le_max_left _ _
    have hclamp2 : max 30 (min 35 f) ≤ 35 := max_le (by norm_num) (min_le_left _ _)
    refine ⟨?_, ?_, ?_⟩
    · exact mul_le_mul_of_nonneg_left hclamp1 (by omega)
    · exact mul_le_mul_of_nonneg_left hclamp2 (by omega)
    · intro h30 h35
      rw [min_eq_right h35, max_eq_right h30]
  · intro u wv hw hne
    unfold Db.recompute_goal_from_formula
    rw [hw]
    dsimp only
    rw [if_neg hne]

/-- C6 witness: the amended theorem applied at weight 70 with the
out-of-range factor 50 and at the concrete `src/db.py` profile. -/
theorem C6_witness :
    calc_goal 70 50 ≤ 70 * 35 ∧
    (Db.recompute_goal_from_formula ⟨some 70, 50, 2000, 0, 0, none⟩).2 = 70 * 50 :=
  ⟨(C6_amended_goal_clamp.1 70 50 (by decide)).2.1,
    C6_amended_goal_clamp.2.2.1 ⟨some 70, 50, 2000, 0, 0, none⟩ 70 rfl (by decide)⟩

/-- C6 counterexample: with stored weight 70 and stored factor 50 (storable
unclamped through `set_factor`), `src/db.py` derives goal 3500, not the
claimed clamped 70 × 35 = 2450 (which is what `calc_goal` would give). -/
theorem C6_cex :
    (Db.recompute_goal_from_formula ⟨some 70, 50, 2000, 0, 0, none⟩).2 = 3500 ∧
    (Db.recompute_goal_from_formula ⟨some 70, 50, 2000, 0, 0, none⟩).2 ≠ calc_goal 70 50 ∧
    Db.set_factor (Db.ensure_user none 33) 50 = ⟨none, 50, 2000, 0, 0, none⟩ := by
  refine ⟨by decide, by decide, by decide⟩

/-! Claim C7. -/

/-- C7: `/api/add` rejects any amount outside (0, 5000] with a validation
error before touching any state (the returned state is the input state
unchanged — no ledger entry, no daily-stat or streak mutation), and for any
amount inside the bounds it stores the entry and returns the fresh opaque
entry id. -/
theorem C7_add_validation (db : AppDB) (tg ml : Int) (drink : String) (day : Int) :
    ((ml ≤ 0 ∨ 5000 < ml) →
      api_add db tg ml drink day = (db, Except.error ApiErr.validation)) ∧
    (0 < ml → ml ≤ 5000 →
      (api_add db tg ml drink day).2 = Except.ok db.nextId ∧
      (api_add db tg ml drink day).1.entries = db.entries ++
        [{ id := db.nextId, tg := tg, day := day, drink := normalizeDrink drink,
           raw_ml := ml, effective_ml := effectiveOf (normalizeDrink drink) ml }]) := by
  constructor
  · intro h
    unfold api_add
    rw [if_pos h]
  · intro h1 h2
    exact api_add_valid_shape db tg ml drink day (by omega)

/-- C7 witness: an out-of-range amount (6000) is rejected without state
change, and a valid amount (250) returns the fresh id. -/
theorem C7_witness :
    api_add emptyDB 1 6000 "water" 0 = (emptyDB, Except.error ApiErr.validation) ∧
    (api_add emptyDB 1 250 "water" 0).2 = Except.ok emptyDB.nextId :=
  ⟨(C7_add_validation emptyDB 1 6000 "water" 0).1 (by decide),
    ((C7_add_validation emptyDB 1 250 "water" 0).2 (by decide) (by decide)).1⟩

/-! Claim C8. -/

/-- C8 (amended): `/api/undo` deletes an entry only when it exists and
belongs to the requesting user.  A non-positive id is rejected with a
validation error and no state change; an id with no matching owned entry
fails with NotFound and leaves the ledger, daily stats and streak counters
untouched — but the resulting state is `ensure_user` of the input, because
the lazy profile provisioning that precedes the lookup persists even on the
failure path. -/
theorem C8_amended_undo (db : AppDB) (tg eid clientDay : Int) :
    (eid ≤ 0 → api_undo db tg eid clientDay = (db, Except.error ApiErr.validation)) ∧
    (¬ eid ≤ 0 →
      (ensure_user db tg).entries.find? (fun e => e.id == eid && e.tg == tg) = none →
      (api_undo db tg eid clientDay).2 = Except.error ApiErr.notFound ∧
      (api_undo db tg eid clientDay).1 = ensure_user db tg) ∧
    (∀ e, ¬ eid ≤ 0 →
      (ensure_user db tg).entries.find? (fun x => x.id == eid && x.tg == tg) = some e →
      (api_undo db tg eid clientDay).2 = Except.ok () ∧
      (api_undo db tg eid clientDay).1.entries =
        (ensure_user db tg).entries.filter (fun x => !(x.id == eid && x.tg == tg))) := by
  refine ⟨(api_undo_shape db tg eid clientDay).1, ?_, (api_undo_shape db tg eid clientDay).2.2⟩
  intro hp hn
  rw [(api_undo_shape db tg eid clientDay).2.1 hp hn]
  exact ⟨rfl, rfl⟩

/-- C8 witness: a non-positive id is rejected unchanged, and a NotFound undo
on the fresh database leaves exactly the provisioned state. -/
theorem C8_witness :
    api_undo emptyDB 1 0 0 = (emptyDB, Except.error ApiErr.validation) ∧
    (api_undo emptyDB 1 7 3).1 = ensure_user emptyDB 1 :=
  ⟨(C8_amended_undo emptyDB 1 0 0).1 (by decide),
    ((C8_amended_undo emptyDB 1 7 3).2.1 (by decide) (by decide)).2⟩

/-- C8 counterexample: a NotFound undo does change state when the requesting
user was not yet provisioned — the users table gains the default profile
row, so "no state change" is false as stated. -/
theorem C8_cex :
    (api_undo emptyDB 1 5 0).2 = Except.error ApiErr.notFound ∧
    (api_undo emptyDB 1 5 0).1 ≠ emptyDB := by
  refine ⟨rfl, by decide⟩

/-! Claim C9. -/

/-- The effective amount stored by the code equals the spec's
round(raw × multiplier). -/
theorem effectiveOf_eq_spec (d : String) (ml : Int) : effectiveOf d ml = specEffective d ml := by
  unfold effectiveOf specEffective specRound
  split
  · congr 1
    ring
  · split
    · congr 1
      ring
    · rfl

/-- C9: a valid `/api/add` normalizes any drink category outside
{water, tea, coffee} to "water", stores exactly one new immutable entry (the
previous entries are untouched), and persists as its effective amount
round(raw × multiplier) with multipliers water 1.0, tea 0.8, coffee 0.6,
computed once at insert time. -/
theorem C9_drink_normalization (db : AppDB) (tg ml : Int) (drink : String) (day : Int)
    (h1 : 0 < ml) (h2 : ml ≤ 5000) :
    (api_add db tg ml drink day).1.entries = db.entries ++
      [{ id := db.nextId, tg := tg, day := day, drink := normalizeDrink drink, raw_ml := ml,
         effective_ml := specEffective (normalizeDrink drink) ml }] ∧
    (¬ (drink = "water" ∨ drink = "tea" ∨ drink = "coffee") →
      normalizeDrink drink = "water") := by
  constructor
  · rw [← effectiveOf_eq_spec]
    exact (api_add_valid_shape db tg ml drink day (by omega)).2
  · intro h
    unfold normalizeDrink
    rw [if_neg h]

/-- C9 witness: an add with the unknown category "juice" stores a water
entry with effective amount equal to the raw amount. -/
theorem C9_witness :
    (api_add emptyDB 1 333 "juice" 0).1.entries = emptyDB.entries ++
      [{ id := emptyDB.nextId, tg := 1, day := 0, drink := normalizeDrink "juice", raw_ml := 333,
         effective_ml := specEffective (normalizeDrink "juice") 333 }] :=
  (C9_drink_normalization emptyDB 1 333 "juice" 0 (by decide) (by decide)).1

/-! Claim C10. -/

/-- C10: the incremental streak variant (`update_streak` in `src/db.py`)
mutates nothing when the day is not done; when the last streak-update date
already equals the given local date it returns without mutation; composing
two updates on the same date collapses (either the second is a no-op on the
first's result, or the first was itself a no-op), so the current streak is
advanced at most once per local date regardless of how many refreshes run
that day — indeed a single update raises the current streak by at most 1. -/
theorem C10_incremental_once_per_day (stats : List Db.DbStat) (u : Db.DbUser) (d : Int) :
    (Db.get_day_done stats d = false → Db.update_streak stats u d = u) ∧
    (u.last_streak_date = some d → Db.update_streak stats u d = u) ∧
    (∀ stats' : List Db.DbStat,
      Db.update_streak stats' (Db.update_streak stats u d) d = Db.update_streak stats u d ∨
      Db.update_streak stats u d = u) ∧
    (Db.update_streak stats u d).current_streak ≤ u.current_streak + 1 := by
  refine ⟨Db.update_streak_not_done stats u d, Db.update_streak_same_date stats u d, ?_, ?_⟩
  · intro stats'
    rcases Db.update_streak_stamp_or_id stats u d with h | h
    · exact Or.inl (Db.update_streak_same_date _ _ _ h)
    · exact Or.inr h
  · unfold Db.update_streak
    split
    · cases hl : u.last_streak_date with
      | none => simp [Db.streak_commit]
      | some l =>
        dsimp only
        split
        · omega
        · split <;> simp [Db.streak_commit]
    · omega

/-- C10 witness: a not-done day leaves the profile unchanged, and a
same-date repeat is a no-op. -/
theorem C10_witness :
    Db.update_streak [] (Db.ensure_user none 33) 5 = Db.ensure_user none 33 ∧
    Db.update_streak [⟨5, 2500, 2000, 1⟩]
        { weight_kg := none, ml_per_kg := 33, goal_ml := 2000, current_streak := 2,
          best_streak := 2, last_streak_date := some 5 } 5 =
      { weight_kg := none, ml_per_kg := 33, goal_ml := 2000, current_streak := 2,
        best_streak := 2, last_streak_date := some 5 } :=
  ⟨(C10_incremental_once_per_day [] (Db.ensure_user none 33) 5).1 (by decide),
    (C10_incremental_once_per_day [⟨5, 2500, 2000, 1⟩] _ 5).2.1 rfl⟩
